import Mathlib

/-!
# Verification of the Bottle-of-Rhumb water router

Shallow embedding of the core routing code (`autoroute.js`, its worker, and
the simpler A* variant) and proofs about it.

Modelling conventions:
* JS numbers are embedded as `ℚ` (exact rational arithmetic standing in for
  IEEE doubles; overflow/NaN behaviour is out of scope).
* The transcendental kernel (`Math.sin`, `Math.cos`, `Math.asin`,
  `Math.atan2`, `Math.sqrt`, `Math.hypot`, `Math.PI`) is an abstract
  parameter `MathOps`, since those built-ins are floating-point library
  functions external to the repository.  All structural theorems hold for an
  arbitrary kernel; analytic hypotheses (e.g. distances are nonnegative) are
  stated explicitly where a claim needs them, and each is discharged on a
  concrete kernel in the witness.
* The H3 hex-grid library is an external capability supplied by the caller
  (`h3.geoToH3`, `h3.h3ToGeo`, `h3.kRing`), embedded as the parameter
  structure `H3Ops`.  Cells are opaque identifiers, embedded as `ℤ`.
* JS `Map` objects are embedded as association lists; memo caches of pure
  functions are dropped (they do not change the computed function).
-/

/-- Opaque H3 cell identifier (strings in the JS source). -/
abbrev Cell := ℤ

/-- A geographic point `{lng, lat}` in degrees, as used throughout
`autoroute.js`. -/
structure Point where
  lng : ℚ
  lat : ℚ
deriving DecidableEq, Repr

/-- Truncation of a rational toward zero, used to embed the JS `%` remainder
operator (which truncates toward zero). -/
def ratTrunc (q : ℚ) : ℤ :=
  if 0 ≤ q then ⌊q⌋ else -⌊-q⌋

/-- JS remainder `a % b` on numbers: `a - b * trunc(a / b)`. -/
def jsMod (a b : ℚ) : ℚ :=
  a - b * ratTrunc (a / b)

/-- The floating-point math built-ins used by the source, as an abstract
kernel.  `Math.PI` is a constant of the kernel. -/
structure MathOps where
  sin : ℚ → ℚ
  cos : ℚ → ℚ
  asin : ℚ → ℚ
  atan2 : ℚ → ℚ → ℚ
  sqrt : ℚ → ℚ
  hypot : ℚ → ℚ → ℚ
  pi : ℚ

/-- Earth radius in meters: `const R = 6371008.8`. -/
def earthR : ℚ := 63710088 / 10

/-- `const toRad = d => d * Math.PI / 180`. -/
def toRad (m : MathOps) (d : ℚ) : ℚ := d * m.pi / 180

/-- `const toDeg = r => r * 180 / Math.PI`. -/
def toDeg (m : MathOps) (r : ℚ) : ℚ := r * 180 / m.pi

/-- `const normLng = lng => ((lng + 540) % 360) - 180`. -/
def normLng (lng : ℚ) : ℚ := jsMod (lng + 540) 360 - 180

/-- `haversineM(a, b)` from `autoroute.js`: great-circle distance in meters. -/
def haversineM (m : MathOps) (a b : Point) : ℚ :=
  let dLat := toRad m (b.lat - a.lat)
  let dLon := toRad m (b.lng - a.lng)
  let s1 := m.sin (dLat / 2)
  let s2 := m.sin (dLon / 2)
  let h := s1 * s1 + m.cos (toRad m a.lat) * m.cos (toRad m b.lat) * s2 * s2
  2 * earthR * m.asin (min 1 (m.sqrt h))

/-- `bearing(a, b)` from `autoroute.js`: initial great-circle bearing in
degrees, normalized to `[0, 360)`. -/
def bearing (m : MathOps) (a b : Point) : ℚ :=
  let f1 := toRad m a.lat
  let f2 := toRad m b.lat
  let dl := toRad m (b.lng - a.lng)
  let y := m.sin dl * m.cos f2
  let x := m.cos f1 * m.sin f2 - m.sin f1 * m.cos f2 * m.cos dl
  jsMod (toDeg m (m.atan2 y x) + 360) 360

/-- `destM(a, meters, brgDeg)` from `autoroute.js`: destination point reached
from `a` after `meters` meters on bearing `brgDeg`. -/
def destM (m : MathOps) (a : Point) (meters brgDeg : ℚ) : Point :=
  let dd := meters / earthR
  let th := toRad m brgDeg
  let f1 := toRad m a.lat
  let l1 := toRad m a.lng
  let sinf1 := m.sin f1
  let cosf1 := m.cos f1
  let sind := m.sin dd
  let cosd := m.cos dd
  let sinf2 := sinf1 * cosd + cosf1 * sind * m.cos th
  let f2 := m.asin (min 1 (max (-1) sinf2))
  let y := m.sin th * sind * cosf1
  let x := cosd - sinf1 * m.sin f2
  let l2 := l1 + m.atan2 y x
  ⟨jsMod (toDeg m l2 + 540) 360 - 180, toDeg m f2⟩

/-- `const lerp = (A, B, t) => ({lng: A.lng + (B.lng - A.lng) * t, lat: A.lat + (B.lat - A.lat) * t})`. -/
def lerp (A B : Point) (t : ℚ) : Point :=
  ⟨A.lng + (B.lng - A.lng) * t, A.lat + (B.lat - A.lat) * t⟩

/-- `gcPoints(A, B, n)` from `autoroute.js`: `n+1` equally spaced samples of
the great-circle interpolation between `A` and `B` (or `[A, B]` when the
angular distance is zero).  Division by a zero `sin δ` is a degenerate kernel
case (JS would produce non-finite coordinates there). -/
def gcPoints (m : MathOps) (A B : Point) (n : ℕ) : List Point :=
  let f1 := toRad m A.lat
  let l1 := toRad m A.lng
  let f2 := toRad m B.lat
  let l2 := toRad m B.lng
  let df := f2 - f1
  let dl := l2 - l1
  let a := (m.sin (df / 2)) ^ 2 + m.cos f1 * m.cos f2 * (m.sin (dl / 2)) ^ 2
  let dd := 2 * m.asin (min 1 (m.sqrt a))
  if dd = 0 then [A, B] else
  let sind := m.sin dd
  let x1 := m.cos f1 * m.cos l1
  let y1 := m.cos f1 * m.sin l1
  let z1 := m.sin f1
  let x2 := m.cos f2 * m.cos l2
  let y2 := m.cos f2 * m.sin l2
  let z2 := m.sin f2
  (List.range (n + 1)).map (fun i =>
    let f : ℚ := (i : ℚ) / (n : ℚ)
    let A1 := m.sin ((1 - f) * dd) / sind
    let B1 := m.sin (f * dd) / sind
    let x := A1 * x1 + B1 * x2
    let y := A1 * y1 + B1 * y2
    let z := A1 * z1 + B1 * z2
    let ff := m.atan2 z (m.hypot x y)
    let ll := m.atan2 y x
    ⟨jsMod (toDeg m ll + 540) 360 - 180, toDeg m ff⟩)

/-- The external H3 hex-grid capability used by the router:
`geoToH3(lat, lng, res)`, `h3ToGeo(cell) = [lat, lng]`, `kRing(cell, k)`. -/
structure H3Ops where
  geoToH3 : ℚ → ℚ → ℕ → Cell
  h3ToGeo : Cell → ℚ × ℚ
  kRing : Cell → ℕ → List Cell

/-- `makeHasLandCellNoiseTolerant(h3, hasLandCell, neighborThresh = 3)` from
`autoroute.js`: a cell is land only when the base test hits it and at least
`neighborThresh` members of `h3.kRing(cell, 1)` hit as well.  (Per the H3
library contract, `kRing(cell, 1)` contains the origin cell itself.) -/
def makeHasLandCellNoiseTolerant (h3 : H3Ops) (hasLandCell : Cell → Bool)
    (neighborThresh : ℕ) : Cell → Bool :=
  fun cell =>
    if !hasLandCell cell then false
    else neighborThresh ≤ (h3.kRing cell 1).countP (fun nb => hasLandCell nb)

/-- `makeIsCellBlocked({h3, h3Res, hasLandCell, dilateKRings = 1})` from
`autoroute.js` (part_006): blocked when the noise-tolerant test (threshold 3)
hits the cell, or, with positive dilation, hits any cell of
`kRing(cell, dilateKRings)`.  The pure-function memo `Map` of the source is
dropped. -/
def makeIsCellBlocked (h3 : H3Ops) (_h3Res : ℕ) (hasLandCell : Cell → Bool)
    (dilateKRings : ℕ) : Cell → Bool :=
  let noiseHasLand := makeHasLandCellNoiseTolerant h3 hasLandCell 3
  fun cell =>
    noiseHasLand cell ||
      (decide (0 < dilateKRings) && (h3.kRing cell dilateKRings).any noiseHasLand)

/-- The options object threaded through the `autoroute.js` routing helpers:
math kernel, H3 capability, operating resolution, blocked-cell test and chord
sample spacing (JS default 250, always supplied by the routing pipeline). -/
structure RouteCtx where
  math : MathOps
  h3 : H3Ops
  h3Res : ℕ
  isCellBlocked : Cell → Bool
  sampleMeters : ℚ

/-- `pointIsLand(lng, lat, {h3, h3Res, isCellBlocked})` from `autoroute.js`. -/
def pointIsLand (lng lat : ℚ) (ctx : RouteCtx) : Bool :=
  ctx.isCellBlocked (ctx.h3.geoToH3 lat lng ctx.h3Res)

/-- The sample count used by `chordCrossesLand`:
`n = Math.max(48, Math.ceil(d / sampleMeters))`. -/
def chordSampleCount (d sampleMeters : ℚ) : ℕ :=
  (max 48 ⌈d / sampleMeters⌉).toNat

/-- `chordCrossesLand(A, B, {h3, h3Res, isCellBlocked, sampleMeters})` from
`autoroute.js` (part_006): samples the great-circle interpolation (skipping
index 0) and reports whether any sampled point falls in a blocked cell. -/
def chordCrossesLand (A B : Point) (ctx : RouteCtx) : Bool :=
  let d := haversineM ctx.math A B
  let n := chordSampleCount d ctx.sampleMeters
  let pts := gcPoints ctx.math A B n
  (pts.drop 1).any (fun p => pointIsLand p.lng p.lat ctx)

/-- Out-of-range list index placeholder (JS would yield `undefined`; all
embedded accesses are in range). -/
def pdef : Point := ⟨0, 0⟩

/-- The loop of `smoothCenters` (part_006 / part_004, identical): scans `i`
from 2, committing `centers[i-1]` and moving the anchor whenever the chord
from the anchor to `centers[i]` is blocked; afterwards pushes the final
center. -/
def smoothGo (ctx : RouteCtx) (centers : List Point) (i anchor : ℕ)
    (out : List Point) : List Point :=
  if h : i < centers.length then
    if chordCrossesLand (centers.getD anchor pdef) (centers.getD i pdef) ctx then
      smoothGo ctx centers (i + 1) (i - 1) (out ++ [centers.getD (i - 1) pdef])
    else
      smoothGo ctx centers (i + 1) anchor out
  else
    out ++ [centers.getD (centers.length - 1) pdef]
termination_by centers.length - i
decreasing_by all_goals omega

/-- `smoothCenters(centers, losOpts)` from `autoroute.js`: line-of-sight
simplification of a cell-center polyline. -/
def smoothCenters (centers : List Point) (ctx : RouteCtx) : List Point :=
  if centers.length ≤ 2 then centers
  else smoothGo ctx centers 2 0 [centers.getD 0 pdef]

/-- `bearingsFanAround(center, step = 10, widen = 1)` from `autoroute.js`:
all bearings `0, step, …, < 360` stably sorted by angular distance to
`center`; with `widen > 1` the best 12 are prepended again. -/
def bearingsFanAround (center : ℚ) (step : ℕ) (widen : ℕ) : List ℚ :=
  let raw : List ℚ := ((List.range ((360 + step - 1) / step)).map
    (fun b => ((b * step : ℕ) : ℚ)))
  let norm : ℚ → ℚ := fun x => jsMod (jsMod x 360 + 360) 360
  let score : ℚ → ℚ := fun b => min |norm (b - center)| (360 - |norm (b - center)|)
  let sorted := raw.insertionSort (fun a b => score a ≤ score b)
  if 1 < widen then sorted.take 12 ++ sorted else sorted

/-- `firstHitOnSegment(A, B, ctx)` from `autoroute.js`: first sampled point of
the chord (including index 0) whose cell is blocked, or `none`.
(`ctx.sampleMeters ?? 400` is always supplied by the routing pipeline.) -/
def firstHitOnSegment (A B : Point) (ctx : RouteCtx) : Option Point :=
  let d := haversineM ctx.math A B
  let n := (max 256 ⌈d / max 250 ctx.sampleMeters⌉).toNat
  let pts := gcPoints ctx.math A B n
  pts.find? (fun p => pointIsLand p.lng p.lat ctx)

/-- The fan/radius defaults of `trySingleDetour`:
`ctx.radiiKm ?? [150, 300, 600, 900, 1200, 1600, 2000]` and
`ctx.bearingStep ?? 10` (the pipeline always passes 10). -/
def detourRadiiKm : List ℚ := [150, 300, 600, 900, 1200, 1600, 2000]

/-- `trySingleDetour(A, B, ctx)` from `autoroute.js`: searches a perpendicular
fan of bearings at growing radii around the first blocked sample (or the
midpoint) for a via-point `C` with `C`, `A→C` and `C→B` all clear; returns
`[A, C, B]` on first success. -/
def trySingleDetour (A B : Point) (ctx : RouteCtx) (bearingStep : ℕ) :
    Option (List Point) :=
  let hit := (firstHitOnSegment A B ctx).getD (lerp A B (1 / 2))
  let brgAB := bearing ctx.math A B
  let perp := jsMod (brgAB + 90) 360
  let bearings := bearingsFanAround perp bearingStep 2
  detourRadiiKm.findSome? (fun rKm =>
    bearings.findSome? (fun brg =>
      let C := destM ctx.math hit (rKm * 1000) brg
      if pointIsLand C.lng C.lat ctx then none
      else if chordCrossesLand A C ctx then none
      else if chordCrossesLand C B ctx then none
      else some [A, C, B]))

/-- `landAwareFallback(A, B, ctx, depth = 0, maxDepth = 8)` from
`autoroute.js`: recursive great-circle detour fallback.  Straight chord if
clear, else one detour, else split at the midpoint and recurse on both
halves; gives up beyond `maxDepth`. -/
def landAwareFallback (A B : Point) (ctx : RouteCtx) (bearingStep : ℕ)
    (depth maxDepth : ℕ) : Option (List Point) :=
  if _h : maxDepth < depth then none
  else if !chordCrossesLand A B ctx then some [A, B]
  else match trySingleDetour A B ctx bearingStep with
    | some detour => some detour
    | none =>
      match landAwareFallback A (lerp A B (1 / 2)) ctx bearingStep
          (depth + 1) maxDepth,
        landAwareFallback (lerp A B (1 / 2)) B ctx bearingStep
          (depth + 1) maxDepth with
      | some L, some Rt => some (L.dropLast ++ Rt)
      | some _, none => none
      | none, _ => none
termination_by maxDepth + 1 - depth
decreasing_by all_goals omega

namespace V4

/-- `makeIsCellBlocked({h3, hasLandCell, dilateKRings = 1})` from the simpler
A* variant (part_004): direct base test plus `kRing` dilation, with no noise
filter.  The memo `Map` of a pure function is dropped. -/
def makeIsCellBlocked (h3 : H3Ops) (hasLandCell : Cell → Bool)
    (dilateKRings : ℕ) : Cell → Bool :=
  fun cell =>
    hasLandCell cell ||
      (decide (0 < dilateKRings) && (h3.kRing cell dilateKRings).any hasLandCell)

/-- Options taken by `nudgeOffshore` (part_004); the JS defaults are
`maxNudgeMeters = 5000`, `nudgeStepMeters = 200`, `dilateKRings = 1`. -/
structure NudgeOpts where
  math : MathOps
  h3 : H3Ops
  h3Res : ℕ
  hasLandCell : Cell → Bool
  maxNudgeMeters : ℚ
  nudgeStepMeters : ℚ
  dilateKRings : ℕ

/-- The probe distances of `nudgeOffshore`:
`for (let d = nudgeStepMeters; d <= maxNudgeMeters; d += nudgeStepMeters)`
(for a positive step, as in every call of the source). -/
def nudgeDists (o : NudgeOpts) : List ℚ :=
  (List.range (⌊o.maxNudgeMeters / o.nudgeStepMeters⌋.toNat)).map
    (fun k => o.nudgeStepMeters * ((k : ℚ) + 1))

/-- The probe bearings of `nudgeOffshore`: `for (let br = 0; br < 360; br += 15)`. -/
def nudgeBearings : List ℚ := (List.range 24).map (fun k => ((k * 15 : ℕ) : ℚ))

/-- `nudgeOffshore(p, opts)` from part_004: returns `p` unchanged when its
cell is unblocked; otherwise probes growing distances and every 15° bearing
for an unblocked cell, and returns the original `p` when every probe fails. -/
def nudgeOffshore (p : Point) (o : NudgeOpts) : Point :=
  let isCellBlocked := V4.makeIsCellBlocked o.h3 o.hasLandCell o.dilateKRings
  if !isCellBlocked (o.h3.geoToH3 p.lat p.lng o.h3Res) then p
  else
    match (nudgeDists o).findSome? (fun d =>
      nudgeBearings.findSome? (fun br =>
        let q := destM o.math p d br
        if isCellBlocked (o.h3.geoToH3 q.lat q.lng o.h3Res) then none
        else some q)) with
    | some q => q
    | none => p

end V4

namespace Worker

/-- Bloom-mask polarity mode of the worker (part_000). -/
inductive Mode where
  | land
  | water
deriving DecidableEq, Repr

/-- `bfMode === 'land' ? 'water' : 'land'`. -/
def flipMode : Mode → Mode
  | Mode.land => Mode.water
  | Mode.water => Mode.land

/-- The routing result consumed by the worker: the coordinates of the
returned GeoJSON `LineString`. -/
structure GeoRoute where
  coordinates : List (ℚ × ℚ)
deriving Repr

/-- The retry arm of the worker's `route` handler (part_000): re-run the route
once with the flipped mode; a still empty/short route re-raises the first
error, while a failure of the retry itself propagates its own error. -/
def retryFlip (routeFn : Mode → Except String GeoRoute) (bfMode : Mode)
    (e1 : String) : Except String GeoRoute :=
  match routeFn (flipMode bfMode) with
  | Except.ok route =>
      if 2 ≤ route.coordinates.length then Except.ok route else Except.error e1
  | Except.error e2 => Except.error e2

/-- The worker's `route` message handler (part_000), with posting side
effects and Bloom calibration elided: rejects fewer than two waypoints before
any routing runs, otherwise routes with the calibrated mode and falls back to
the flipped mode on failure or an empty route. -/
def handleRoute (routeFn : Mode → Except String GeoRoute)
    (pts : List (ℚ × ℚ)) (bfMode : Mode) : Except String GeoRoute :=
  if pts.length < 2 then Except.error "Need at least two points"
  else
    match routeFn bfMode with
    | Except.ok route =>
        if 2 ≤ route.coordinates.length then Except.ok route
        else retryFlip routeFn bfMode "empty route"
    | Except.error e1 => retryFlip routeFn bfMode e1

end Worker

/-- Options taken by `snapEndpointToWater` (part_006); JS defaults are
`dilateKRings = 1`, `searchMaxRings = 120`, `safetyMeters = 150`,
`hintBearing = null` (`none`). -/
structure SnapOpts where
  math : MathOps
  h3 : H3Ops
  h3Res : ℕ
  hasLandCell : Cell → Bool
  dilateKRings : ℕ
  searchMaxRings : ℕ
  safetyMeters : ℚ
  hintBearing : Option ℚ

/-- The result of `snapEndpointToWater`: the snapped point and the optional
two-point dock leg `[[p.lng, p.lat], [Q.lng, Q.lat]]` (the `debug` metadata
of the source is elided). -/
structure SnapResult where
  point : Point
  dockLeg : Option ((ℚ × ℚ) × (ℚ × ℚ))
deriving DecidableEq, Repr

/-- The blocked-cell test built inside `snapEndpointToWater`:
`makeIsCellBlocked({h3, h3Res, hasLandCell, dilateKRings})`. -/
def snapBlocked (o : SnapOpts) : Cell → Bool :=
  makeIsCellBlocked o.h3 o.h3Res o.hasLandCell o.dilateKRings

/-- `firstGoodAlong(bearingDeg)` inside `snapEndpointToWater`: step 150 m at a
time (up to 6000 m) along the hint bearing until a point in an unblocked cell
is found. -/
def snapFirstGoodAlong (p : Point) (o : SnapOpts) (bearingDeg : ℚ) :
    Option Point :=
  ((List.range 40).map (fun j => ((150 * (j + 1) : ℕ) : ℚ))).findSome?
    (fun d =>
      let q := destM o.math p d bearingDeg
      if snapBlocked o (o.h3.geoToH3 q.lat q.lng o.h3Res) then none else some q)

/-- The ring-spiral fallback inside `snapEndpointToWater`: scan
`kRing(seed, r)` for `r = 1 .. searchMaxRings` for the first unblocked cell
and return its center. -/
def snapSpiralC (p : Point) (o : SnapOpts) : Option Point :=
  let seed := o.h3.geoToH3 p.lat p.lng o.h3Res
  ((List.range o.searchMaxRings).map (fun r => r + 1)).findSome? (fun r =>
    ((o.h3.kRing seed r).find? (fun c => !snapBlocked o c)).map (fun c =>
      let tc := o.h3.h3ToGeo c
      (⟨tc.2, tc.1⟩ : Point)))

/-- The water target `C` of `snapEndpointToWater`: the hint-bearing walk when
a finite hint is supplied (falling back to the ring spiral when it finds
nothing), else the ring spiral. -/
def snapC (p : Point) (o : SnapOpts) : Option Point :=
  match o.hintBearing with
  | some hb =>
      match snapFirstGoodAlong p o hb with
      | some q => some q
      | none => snapSpiralC p o
  | none => snapSpiralC p o

/-- The shoreline walk of `snapEndpointToWater`: the first `t = i/20`
(`i = 1 .. 20`) whose lerp toward `C` lies in an unblocked cell. -/
def snapFirstWaterT (p C : Point) (o : SnapOpts) : Option ℚ :=
  (List.range 20).findSome? (fun i =>
    let t := ((i : ℚ) + 1) / 20
    let q := lerp p C t
    if !snapBlocked o (o.h3.geoToH3 q.lat q.lng o.h3Res) then some t else none)

/-- The shoreline binary search of `snapEndpointToWater` (24 iterations,
early exit when the bracket is under 60 m): narrows `[lo, hi]` keeping
`lerp p C hi` in an unblocked cell. -/
def snapBinGo (p C : Point) (o : SnapOpts) : ℕ → ℚ → ℚ → ℚ × ℚ
  | 0, lo, hi => (lo, hi)
  | Nat.succ iter, lo, hi =>
      let mid := (lo + hi) / 2
      let q := lerp p C mid
      let blk := snapBlocked o (o.h3.geoToH3 q.lat q.lng o.h3Res)
      let lo2 := if blk then mid else lo
      let hi2 := if blk then hi else mid
      if haversineM o.math (lerp p C lo2) (lerp p C hi2) < 60 then (lo2, hi2)
      else snapBinGo p C o iter lo2 hi2

/-- `snapEndpointToWater(p, opts)` from `autoroute.js` (part_006): returns the
point unchanged (null dock leg) when its cell is unblocked; otherwise finds a
water target `C` (hint walk, then ring spiral), walks and binary-searches the
shoreline crossing toward `C`, and returns the crossing offset by
`safetyMeters` along `bearing(p, C)` with a dock leg from `p`. -/
def snapEndpointToWater (p : Point) (o : SnapOpts) : SnapResult :=
  let seed := o.h3.geoToH3 p.lat p.lng o.h3Res
  if !snapBlocked o seed then ⟨p, none⟩
  else
    match snapC p o with
    | none => ⟨p, none⟩
    | some C =>
        match snapFirstWaterT p C o with
        | none => ⟨C, some ((p.lng, p.lat), (C.lng, C.lat))⟩
        | some t =>
            let lohi := snapBinGo p C o 24 (max 0 (t - 1 / 20)) t
            let q := lerp p C lohi.2
            let Q := destM o.math q o.safetyMeters (bearing o.math p C)
            ⟨Q, some ((p.lng, p.lat), (Q.lng, Q.lat))⟩

/-- `Map.get` on an association list (JS `Map` keyed by cells). -/
def getA {α : Type} (l : List (Cell × α)) (k : Cell) : Option α :=
  (l.find? (fun e => e.1 == k)).map (fun e => e.2)

/-- `Map.set` on an association list: bind `k` to `v`, dropping any previous
binding (lookup semantics match the JS `Map`). -/
def setA {α : Type} (l : List (Cell × α)) (k : Cell) (v : α) :
    List (Cell × α) :=
  (k, v) :: l.filter (fun e => !(e.1 == k))

/-- Swap of two (in-range) positions of a list, embedding the JS array swap
`[heap[i], heap[j]] = [heap[j], heap[i]]`. -/
def swapL {α : Type} (l : List α) (i j : ℕ) : List α :=
  match l[i]?, l[j]? with
  | some a, some b => (l.set i b).set j a
  | _, _ => l

/-- The sift-up loop of the binary min-heap `push` in `aStarH3` (part_006). -/
def siftUp (h : List (ℚ × Cell)) (i : ℕ) : List (ℚ × Cell) :=
  if i = 0 then h
  else
    let p := (i - 1) / 2
    match h[p]?, h[i]? with
    | some hp, some hi =>
        if hp.1 ≤ hi.1 then h else siftUp (swapL h p i) p
    | _, _ => h
termination_by i
decreasing_by all_goals omega

/-- The heap `push` of `aStarH3`: append and sift up from the last slot. -/
def heapPush (h : List (ℚ × Cell)) (f : ℚ) (c : Cell) : List (ℚ × Cell) :=
  siftUp (h ++ [(f, c)]) h.length

/-- The child-selection step of the binary-heap sift-down in `aStarH3`:
the index of the smaller child when it beats slot `i`, else `i`. -/
def siftTarget (h : List (ℚ × Cell)) (i : ℕ) : ℕ :=
  let fv := fun j => (h.getD j (0, 0)).1
  let l := 2 * i + 1
  let r := l + 1
  let s1 := if l < h.length ∧ fv l < fv i then l else i
  if r < h.length ∧ fv r < fv s1 then r else s1

/-- The sift-down loop of the binary min-heap `pop` in `aStarH3`, with
explicit fuel (the JS loop's index grows strictly, so `h.length` steps
always suffice). -/
def siftDownGo (fuel : ℕ) (h : List (ℚ × Cell)) (i : ℕ) : List (ℚ × Cell) :=
  match fuel with
  | 0 => h
  | Nat.succ fuel =>
      let s2 := siftTarget h i
      if s2 = i then h else siftDownGo fuel (swapL h i s2) s2

/-- The heap `pop` of `aStarH3`: take the root, move the last element to the
root and sift down; `none` on an empty heap. -/
def heapPop (h : List (ℚ × Cell)) : Option ((ℚ × Cell) × List (ℚ × Cell)) :=
  match h with
  | [] => none
  | t :: tail =>
      let v := ((t :: tail).getLast?).getD (0, 0)
      let rest := (t :: tail).dropLast
      if rest.isEmpty then some (t, [])
      else some (t, siftDownGo rest.length (rest.set 0 v) 0)

/-- Center point of a cell: `h3.h3ToGeo` returns `[lat, lng]`. -/
def cellCenter (h3 : H3Ops) (c : Cell) : Point :=
  let g := h3.h3ToGeo c
  ⟨g.2, g.1⟩

/-- `(a ?? Infinity) < (b ?? Infinity)` for the `g`-score comparison of
`aStarH3` (`none` plays JS `Infinity`). -/
def ltInf (a b : Option ℚ) : Bool :=
  match a, b with
  | none, _ => false
  | some _, none => true
  | some x, some y => decide (x < y)

/-- Mutable search state of one `aStarH3` invocation: `g`-scores, parent
links and the open min-heap. -/
structure AStarState where
  g : List (Cell × ℚ)
  came : List (Cell × Cell)
  heap : List (ℚ × Cell)

/-- The neighbor-relaxation body of the `aStarH3` main loop (part_006): skip
the cell itself, cells outside the corridor, blocked cells and edges whose
center chord crosses land (at 220 m spacing); otherwise relax the tentative
`g`-score, record the parent and push onto the heap. -/
def aStarVisit (ctx : RouteCtx) (allowed : Option (List Cell)) (goalC : Point)
    (cur : Cell) (st : AStarState) (nb : Cell) : AStarState :=
  if nb == cur then st
  else if (match allowed with
    | some s => !s.contains nb
    | none => false) then st
  else if ctx.isCellBlocked nb then st
  else
    let cC := cellCenter ctx.h3 cur
    let nC := cellCenter ctx.h3 nb
    if chordCrossesLand cC nC { ctx with sampleMeters := 220 } then st
    else
      let tentative := (getA st.g cur).map
        (fun gc => gc + haversineM ctx.math cC nC)
      if ltInf tentative (getA st.g nb) then
        match tentative with
        | some tv =>
            ⟨setA st.g nb tv, setA st.came nb cur,
              heapPush st.heap (tv + haversineM ctx.math nC goalC) nb⟩
        | none => st
      else st

/-- The parent-link walk of the `aStarH3` path reconstruction, with explicit
fuel: `came.length + 1` steps always suffice when the walk terminates (the
parent map holds `came.length` links). -/
def walkGo (came : List (Cell × Cell)) : ℕ → Cell → List Cell
  | 0, k => [k]
  | Nat.succ n, k =>
      match getA came k with
      | none => [k]
      | some p => k :: walkGo came n p

/-- `const path = [cur]; for (let k = cur; came.has(k);) {k = came.get(k); path.push(k);}`. -/
def walkParents (came : List (Cell × Cell)) (k : Cell) : List Cell :=
  walkGo came (came.length + 1) k

/-- The guarded main loop of `aStarH3` (part_006), counting performed
expansions: each iteration pops the lowest-`f` cell, finishes at the goal by
walking parent links and reversing, and otherwise relaxes the popped cell's
`kRing` neighbors.  The fuel is the `maxExpansions` guard of the source
(`if (++guard > maxExpansions) break`). -/
def aStarLoop (ctx : RouteCtx) (allowed : Option (List Cell)) (goal : Cell)
    (goalC : Point) : ℕ → AStarState → Option (List Cell) × ℕ
  | 0, _ => (none, 0)
  | Nat.succ fuel, st =>
      if st.heap.isEmpty then (none, 0)
      else
        match heapPop st.heap with
        | none => (none, 0)
        | some (top, h2) =>
            let cur := top.2
            if cur == goal then (some (walkParents st.came goal).reverse, 1)
            else
              let st2 := (ctx.h3.kRing cur 1).foldl
                (aStarVisit ctx allowed goalC cur) ⟨st.g, st.came, h2⟩
              let res := aStarLoop ctx allowed goal goalC fuel st2
              (res.1, res.2 + 1)

/-- Initial `aStarH3` state: `g.set(startCell, 0); push(f0(startCell), startCell)`. -/
def aStarInit (ctx : RouteCtx) (start : Cell) (goalC : Point) : AStarState :=
  ⟨setA [] start 0, [],
    heapPush [] (haversineM ctx.math (cellCenter ctx.h3 start) goalC) start⟩

/-- `aStarH3(startCell, goalCell, {h3, h3Res, isCellBlocked, allowed, maxExpansions})`
from part_006, paired with the number of loop expansions performed. -/
def aStarH3Run (startCell goalCell : Cell) (ctx : RouteCtx)
    (allowed : Option (List Cell)) (maxExpansions : ℕ) :
    Option (List Cell) × ℕ :=
  if startCell == goalCell then (some [startCell], 0)
  else
    let goalC := cellCenter ctx.h3 goalCell
    aStarLoop ctx allowed goalCell goalC maxExpansions
      (aStarInit ctx startCell goalC)

/-- `aStarH3` itself: the (optional) cell path. -/
def aStarH3 (startCell goalCell : Cell) (ctx : RouteCtx)
    (allowed : Option (List Cell)) (maxExpansions : ℕ) : Option (List Cell) :=
  (aStarH3Run startCell goalCell ctx allowed maxExpansions).1

/-- The expansions actually performed by `aStarH3`. -/
def aStarH3Count (startCell goalCell : Cell) (ctx : RouteCtx)
    (allowed : Option (List Cell)) (maxExpansions : ℕ) : ℕ :=
  (aStarH3Run startCell goalCell ctx allowed maxExpansions).2

/-- The JS default of the `aStarH3` expansion cap (part_006; part_004
hard-codes the same bound). -/
def defaultMaxExpansions : ℕ := 200000

/-- Keys of an association list. -/
def KeysOf {α : Type} (l : List (Cell × α)) : List Cell :=
  l.map (fun e => e.1)

/-- A degenerate math kernel (every transcendental returns 0): all
structural theorems are kernel-independent, and on this kernel the geometry
is cheap to evaluate. -/
def mZero : MathOps :=
  ⟨fun _ => 0, fun _ => 0, fun _ => 0, fun _ _ => 0, fun _ => 0,
    fun _ _ => 0, 3⟩

/-- A kernel on which `haversineM` is positive for distinct inputs
(`sin = sqrt = asin = id`, `cos = 1`, `atan2 = fst`, `pi = 180`, so
`haversineM a b = 2R · min 1 ((Δlat/2)² + (Δlng/2)²)`). -/
def mPos : MathOps :=
  ⟨fun x => x, fun _ => 1, fun x => x, fun y _ => y, fun x => x,
    fun x y => x + y, 180⟩

/-- A one-cell grid capability: every coordinate maps to cell 0, `kRing`
returns only its origin (hence is monotone in `k`). -/
def h3One : H3Ops := ⟨fun _ _ _ => 0, fun _ => (0, 0), fun c _ => [c]⟩

/-- A line-of-cells capability: cell `c` has center `(lat, lng) = (c, 0)`,
`kRing` returns only its origin. -/
def h3Line : H3Ops := ⟨fun _ _ _ => 0, fun c => ((c : ℚ), 0), fun c _ => [c]⟩

/-- A capability whose cell 0 has the six neighbors `1 .. 6`
(`kRing(0, 1) = [0, 1, …, 6]`, with the origin first, as in the H3 library). -/
def h3Seven : H3Ops :=
  ⟨fun _ _ _ => 0, fun _ => (0, 0),
    fun c k => if k = 1 ∧ c = 0 then [0, 1, 2, 3, 4, 5, 6] else [c]⟩

/-- Base land test marking cells `0, 1, 2` as land. -/
def landLow : Cell → Bool := fun c => decide (0 ≤ c ∧ c ≤ 2)

/-- A routing context in which every cell is blocked. -/
def ctxAllLand : RouteCtx := ⟨mZero, h3One, 6, fun _ => true, 250⟩

/-- A routing context in which no cell is blocked. -/
def ctxAllWater : RouteCtx := ⟨mZero, h3One, 6, fun _ => false, 250⟩

/-- A routing context with positive inter-cell distances and no blocking. -/
def ctxPos : RouteCtx := ⟨mPos, h3Line, 6, fun _ => false, 250⟩

/-- Concrete collinear test points. -/
def pt0 : Point := ⟨0, 0⟩

/-- Second concrete test point. -/
def pt1 : Point := ⟨1, 0⟩

/-- Third concrete test point. -/
def pt2 : Point := ⟨2, 0⟩

/-- A context whose grid puts longitude-0 points in cell 7 (blocked) and all
other points in cell 8 (unblocked). -/
def ctxStartLand : RouteCtx :=
  ⟨mZero,
    ⟨fun _ lng _ => if lng == 0 then 7 else 8, fun _ => (0, 0), fun c _ => [c]⟩,
    6, fun c => c == 7, 250⟩

/-- A route function stub for the worker handler witnesses. -/
def rfOk : Worker.Mode → Except String Worker.GeoRoute :=
  fun _ => Except.ok ⟨[(0, 0), (1, 1)]⟩


/-- Nudge options over an all-land mask (step = max = 200 m, no dilation). -/
def oAllLand : V4.NudgeOpts := ⟨mZero, h3One, 6, fun _ => true, 200, 200, 0⟩

/-- Kernel for the snapping analysis: `sin = sqrt = id`, `cos = 1`,
`asin = 0`, `atan2 y x = 10^6 * y`, `pi = 180` (so `toRad`/`toDeg` are the
identity and `destM` shifts longitude by `10^6 · bearing · d / R`). -/
def m7 : MathOps :=
  ⟨fun x => x, fun _ => 1, fun _ => 0, fun y _ => 1000000 * y, fun x => x,
    fun x y => x + y, 180⟩

/-- Grid for the snapping analysis: cells classify longitude into
land (`< 20` → cell 0), a water band (`[20, 50)` → cell 1) and land again
(`≥ 50` → cell 2); each cell's 1-ring adds two synthetic land neighbors. -/
def h37 : H3Ops :=
  ⟨fun _ lng _ => if lng < 20 then 0 else if lng < 50 then 1 else 2,
    fun _ => (0, 0), fun c _ => [c, c + 10, c + 20]⟩

/-- Base land test for the snapping analysis: everything but cell 1. -/
def hasLand7 : Cell → Bool := fun c => !(c == 1)

/-- Snap options for the analysis: no dilation, hint bearing 1. -/
def o7 : SnapOpts := ⟨m7, h37, 6, hasLand7, 0, 5, 150, some 1⟩

/-- `g`-score lookup with default 0 (used only to rank cells that do have a
score). -/
def gval (g : List (Cell × ℚ)) (x : Cell) : ℚ := (getA g x).getD 0

/-- Invariant of one `aStarH3` search (for nonnegative edge costs): the
start keeps `g`-score 0; every parent link points to the start or to another
linked cell; every link strictly decreases the `g`-score toward the parent;
every heap entry's cell is the start or a linked cell; and all `g`-scores
are nonnegative. -/
def AStarInv (start : Cell) (st : AStarState) : Prop :=
  getA st.g start = some 0 ∧
  (∀ e ∈ st.came, e.2 = start ∨ e.2 ∈ KeysOf st.came) ∧
  (∀ e ∈ st.came, ∃ gx gp, getA st.g e.1 = some gx ∧
    getA st.g e.2 = some gp ∧ gp < gx) ∧
  (∀ q ∈ st.heap, q.2 = start ∨ q.2 ∈ KeysOf st.came) ∧
  (∀ v ∈ st.g, 0 ≤ v.2)

/-! ## Evaluation helpers for the degenerate kernel -/

theorem haversineM_mZero (a b : Point) : haversineM mZero a b = 0 := by
  simp [haversineM, mZero]

theorem gcPoints_mZero (A B : Point) (n : ℕ) : gcPoints mZero A B n = [A, B] := by
  simp [gcPoints, mZero]

theorem chordSampleCount_of_zero (s : ℚ) : chordSampleCount 0 s = 48 := by
  simp [chordSampleCount]

theorem chordCrossesLand_mZero (A B : Point) (ctx : RouteCtx)
    (hm : ctx.math = mZero) :
    chordCrossesLand A B ctx = pointIsLand B.lng B.lat ctx := by
  simp [chordCrossesLand, hm, haversineM_mZero, gcPoints_mZero]

theorem chordCrossesLand_allLand (A B : Point) :
    chordCrossesLand A B ctxAllLand = true := by
  rw [chordCrossesLand_mZero A B ctxAllLand rfl]
  simp [pointIsLand, ctxAllLand]

theorem chordCrossesLand_allWater (A B : Point) :
    chordCrossesLand A B ctxAllWater = false := by
  rw [chordCrossesLand_mZero A B ctxAllWater rfl]
  simp [pointIsLand, ctxAllWater]

/-! ## Claim C1: the chord collision test -/

/-- C1: `chordCrossesLand(A, B, spacing)` computes the great-circle distance
`d`, derives a sample count `n ≥ 48` and `n ≥ ⌈d / spacing⌉` (hence the `n`
equal arc steps of the sampled great-circle interpolation are each at most
`spacing` meters: `d/n ≤ spacing`), samples `gcPoints A B n`, and returns
true iff some sampled point (taken after the start point) lies in a blocked
cell. -/
theorem chordCrossesLand_spec (A B : Point) (ctx : RouteCtx)
    (hs : 0 < ctx.sampleMeters) :
    (chordCrossesLand A B ctx = true ↔
      ∃ p ∈ (gcPoints ctx.math A B
          (chordSampleCount (haversineM ctx.math A B) ctx.sampleMeters)).drop 1,
        pointIsLand p.lng p.lat ctx = true) ∧
    48 ≤ chordSampleCount (haversineM ctx.math A B) ctx.sampleMeters ∧
    ⌈haversineM ctx.math A B / ctx.sampleMeters⌉ ≤
      (chordSampleCount (haversineM ctx.math A B) ctx.sampleMeters : ℤ) ∧
    haversineM ctx.math A B /
      (chordSampleCount (haversineM ctx.math A B) ctx.sampleMeters : ℚ) ≤
      ctx.sampleMeters := by
  have h48 : 48 ≤ chordSampleCount (haversineM ctx.math A B) ctx.sampleMeters := by
    unfold chordSampleCount; omega
  have hceil : ⌈haversineM ctx.math A B / ctx.sampleMeters⌉ ≤
      (chordSampleCount (haversineM ctx.math A B) ctx.sampleMeters : ℤ) := by
    unfold chordSampleCount; omega
  refine ⟨?_, h48, hceil, ?_⟩
  · simp [chordCrossesLand, List.any_eq_true]
  · set d := haversineM ctx.math A B with hd_def
    set n := chordSampleCount d ctx.sampleMeters with hn_def
    have hn0 : (0 : ℚ) < (n : ℚ) := by
      have h : (0 : ℕ) < n := by omega
      exact_mod_cast h
    have h1 : d / ctx.sampleMeters ≤ (n : ℚ) := by
      calc d / ctx.sampleMeters ≤ (⌈d / ctx.sampleMeters⌉ : ℚ) := Int.le_ceil _
        _ ≤ ((n : ℤ) : ℚ) := by exact_mod_cast hceil
        _ = (n : ℚ) := by push_cast; ring
    have h2 : d ≤ (n : ℚ) * ctx.sampleMeters := (div_le_iff₀ hs).mp h1
    exact (div_le_iff₀ hn0).mpr (by linarith)

/-- C1 witness: a concrete context with positive spacing, to which the
theorem applies; the sample-count floor is met there. -/
theorem chordCrossesLand_spec_witness :
    0 < ctxAllWater.sampleMeters ∧
    48 ≤ chordSampleCount (haversineM ctxAllWater.math pt0 pt1)
      ctxAllWater.sampleMeters := by
  have h2 : 0 < ctxAllWater.sampleMeters := by norm_num [ctxAllWater]
  exact ⟨h2, (chordCrossesLand_spec pt0 pt1 ctxAllWater h2).2.1⟩

/-! ## Claim C3: the noise-tolerant land filter -/

/-- C3 counterexample: with the H3 1-ring `[0, 1, …, 6]` of cell 0 (origin
included, as the H3 library returns it) and base land set `{0, 1, 2}`, cell 0
has only 2 of its 6 neighbors testing positive, yet the noise-tolerant filter
with threshold 3 accepts it: the cell's own base hit counts toward the
neighbor threshold. -/
theorem noiseTolerant_counterexample :
    landLow 0 = true ∧
    ((h3Seven.kRing 0 1).filter (fun c => !(c == 0))).countP landLow = 2 ∧
    makeHasLandCellNoiseTolerant h3Seven landLow 3 0 = true := by
  refine ⟨by decide, by decide, by decide⟩

/-- C3 (amended): the noise-tolerant test is true iff the base test hits the
cell and at least `neighborThresh` members of `kRing(cell, 1)` hit — and the
1-ring includes the cell itself per the H3 contract, so a base-positive
cell's own hit counts toward the threshold (effectively `neighborThresh - 1`
true neighbors suffice). -/
theorem noiseTolerant_spec (h3 : H3Ops) (hasLandCell : Cell → Bool)
    (neighborThresh : ℕ) (cell : Cell) :
    makeHasLandCellNoiseTolerant h3 hasLandCell neighborThresh cell = true ↔
      (hasLandCell cell = true ∧
        neighborThresh ≤ (h3.kRing cell 1).countP (fun nb => hasLandCell nb)) := by
  unfold makeHasLandCellNoiseTolerant
  cases h : hasLandCell cell <;> simp [h]

/-! ## Claim C6: dilation monotonicity -/

/-- C6: with a `kRing` capability whose rings are nested (`kRing cell k ⊆
kRing cell (k+1)`, the H3 contract), a cell unblocked under dilation `k+1`
is unblocked under dilation `k` — for both the noise-tolerant blocked test
(part_006) and the plain one (part_004): raising the ring count can only
shrink the set of unblocked cells. -/
theorem isCellBlocked_dilation_mono (h3 : H3Ops) (h3Res : ℕ)
    (hasLandCell : Cell → Bool) (k : ℕ) (cell : Cell)
    (hmono : ∀ x ∈ h3.kRing cell k, x ∈ h3.kRing cell (k + 1)) :
    (makeIsCellBlocked h3 h3Res hasLandCell (k + 1) cell = false →
      makeIsCellBlocked h3 h3Res hasLandCell k cell = false) ∧
    (V4.makeIsCellBlocked h3 hasLandCell (k + 1) cell = false →
      V4.makeIsCellBlocked h3 hasLandCell k cell = false) := by
  constructor
  · intro h
    unfold makeIsCellBlocked at h ⊢
    simp only [Bool.or_eq_false_iff, Bool.and_eq_false_iff] at h ⊢
    refine ⟨h.1, ?_⟩
    rcases h.2 with h2 | h2
    · simp at h2
    · rcases Nat.eq_zero_or_pos k with hk | hk
      · subst hk; left; decide
      · right
        simp only [List.any_eq_false] at h2 ⊢
        exact fun x hx => h2 x (hmono x hx)
  · intro h
    unfold V4.makeIsCellBlocked at h ⊢
    simp only [Bool.or_eq_false_iff, Bool.and_eq_false_iff] at h ⊢
    refine ⟨h.1, ?_⟩
    rcases h.2 with h2 | h2
    · simp at h2
    · rcases Nat.eq_zero_or_pos k with hk | hk
      · subst hk; left; decide
      · right
        simp only [List.any_eq_false] at h2 ⊢
        exact fun x hx => h2 x (hmono x hx)

/-- C6 witness: a concrete nested-ring capability and an all-water mask. -/
theorem isCellBlocked_dilation_mono_witness :
    makeIsCellBlocked h3One 6 (fun _ => false) 0 0 = false ∧
    V4.makeIsCellBlocked h3One (fun _ => false) 0 0 = false := by
  have hmono : ∀ x ∈ h3One.kRing 0 0, x ∈ h3One.kRing 0 1 := by decide
  exact ⟨(isCellBlocked_dilation_mono h3One 6 (fun _ => false) 0 0 hmono).1 (by decide),
    (isCellBlocked_dilation_mono h3One 6 (fun _ => false) 0 0 hmono).2 (by decide)⟩

/-! ## Claim C9: the chord test ignores the start sample -/

/-- C9: `chordCrossesLand` equals a scan of the interpolation samples with
index 0 (the start point) dropped; consequently a chord all of whose samples
after the start lie in unblocked cells is reported as not crossing land,
regardless of the status of the start point's own cell. -/
theorem chordCrossesLand_start_excluded (A B : Point) (ctx : RouteCtx) :
    (chordCrossesLand A B ctx =
      ((gcPoints ctx.math A B
          (chordSampleCount (haversineM ctx.math A B) ctx.sampleMeters)).drop 1).any
        (fun p => pointIsLand p.lng p.lat ctx)) ∧
    ((∀ p ∈ (gcPoints ctx.math A B
          (chordSampleCount (haversineM ctx.math A B) ctx.sampleMeters)).drop 1,
        pointIsLand p.lng p.lat ctx = false) →
      chordCrossesLand A B ctx = false) := by
  refine ⟨rfl, fun h => ?_⟩
  simp only [chordCrossesLand, List.any_eq_false]
  exact fun x hx => by simp [h x hx]

/-- C9 witness: a chord whose start point lies in a blocked cell (cell 7)
while every later sample is unblocked is reported as not crossing. -/
theorem chordCrossesLand_start_excluded_witness :
    ctxStartLand.isCellBlocked
      (ctxStartLand.h3.geoToH3 pt0.lat pt0.lng ctxStartLand.h3Res) = true ∧
    chordCrossesLand pt0 pt1 ctxStartLand = false := by
  have hsam : ∀ p ∈ (gcPoints ctxStartLand.math pt0 pt1
      (chordSampleCount (haversineM ctxStartLand.math pt0 pt1)
        ctxStartLand.sampleMeters)).drop 1,
      pointIsLand p.lng p.lat ctxStartLand = false := by
    have hz : ctxStartLand.math = mZero := rfl
    rw [hz, gcPoints_mZero]
    intro p hp
    simp only [List.drop, List.mem_singleton] at hp
    subst hp
    simp [pointIsLand, ctxStartLand, pt1]
  exact ⟨by decide, (chordCrossesLand_start_excluded pt0 pt1 ctxStartLand).2 hsam⟩

/-! ## Claim C2: the smoothing invariant -/

theorem chain_getD {R : Point → Point → Prop} {l : List Point}
    (h : l.Chain' R) (j : ℕ) (hj : j + 1 < l.length) :
    R (l.getD j pdef) (l.getD (j + 1) pdef) := by
  rw [List.getD_eq_getElem l pdef (by omega), List.getD_eq_getElem l pdef hj]
  exact List.chain'_iff_get.mp h j (by omega)

theorem smoothGo_chain (ctx : RouteCtx) (centers : List Point)
    (hin : centers.Chain' (fun P Q => chordCrossesLand P Q ctx = false)) :
    ∀ fuel i anchor out, centers.length - i ≤ fuel → 2 ≤ i →
    i ≤ centers.length → anchor + 2 ≤ i →
    out.Chain' (fun P Q => chordCrossesLand P Q ctx = false) →
    out.getLast? = some (centers.getD anchor pdef) →
    chordCrossesLand (centers.getD anchor pdef) (centers.getD (i - 1) pdef) ctx
      = false →
    (smoothGo ctx centers i anchor out).Chain'
      (fun P Q => chordCrossesLand P Q ctx = false) := by
  intro fuel
  induction fuel with
  | zero =>
      intro i anchor out hfuel h2 hle _ hout hlast hlink
      have hi : i = centers.length := by omega
      unfold smoothGo
      rw [dif_neg (by omega)]
      rw [List.chain'_append]
      refine ⟨hout, List.chain'_singleton _, ?_⟩
      intro x hx y hy
      simp only [List.head?_cons, Option.mem_def] at hy
      rw [hlast] at hx
      simp only [Option.mem_def, Option.some.injEq] at hx
      subst hx
      rw [Option.some_inj] at hy
      subst hy
      rw [← hi]
      exact hlink
  | succ fuel ih =>
      intro i anchor out hfuel h2 hle h4 hout hlast hlink
      unfold smoothGo
      by_cases hi : i < centers.length
      · rw [dif_pos hi]
        by_cases hchord : chordCrossesLand (centers.getD anchor pdef)
            (centers.getD i pdef) ctx = true
        · rw [if_pos hchord]
          apply ih (i + 1) (i - 1) (out ++ [centers.getD (i - 1) pdef])
            (by omega) (by omega) (by omega) (by omega)
          · rw [List.chain'_append]
            refine ⟨hout, List.chain'_singleton _, ?_⟩
            intro x hx y hy
            simp only [List.head?_cons, Option.mem_def] at hy
            rw [hlast] at hx
            simp only [Option.mem_def, Option.some.injEq] at hx
            subst hx
            rw [Option.some_inj] at hy
            subst hy
            exact hlink
          · simp only [List.getLast?_append, List.getLast?_singleton]
            rfl
          · have hstep : chordCrossesLand (centers.getD (i - 1) pdef)
                (centers.getD i pdef) ctx = false := by
              have := chain_getD hin (i - 1) (by omega)
              rwa [show i - 1 + 1 = i by omega] at this
            simpa using hstep
        · rw [if_neg hchord]
          apply ih (i + 1) anchor out (by omega) (by omega) (by omega)
            (by omega) hout hlast
          simpa using Bool.eq_false_iff.mpr hchord
      · rw [dif_neg hi]
        rw [List.chain'_append]
        refine ⟨hout, List.chain'_singleton _, ?_⟩
        intro x hx y hy
        simp only [List.head?_cons, Option.mem_def] at hy
        rw [hlast] at hx
        simp only [Option.mem_def, Option.some.injEq] at hx
        subst hx
        rw [Option.some_inj] at hy
        subst hy
        have hi2 : i = centers.length := by omega
        rw [← hi2]
        exact hlink

/-- C2 counterexample: with every cell blocked, the smoothing pass applied to
three collinear centers returns all three, and the chord between the first
two output vertices is blocked — the claimed invariant fails for an arbitrary
input path (the source never checks the `anchor → i-1` segment it commits). -/
theorem smoothCenters_counterexample :
    smoothCenters [pt0, pt1, pt2] ctxAllLand = [pt0, pt1, pt2] ∧
    chordCrossesLand pt0 pt1 ctxAllLand = true := by
  constructor
  · unfold smoothCenters
    rw [if_neg (by decide)]
    unfold smoothGo
    rw [dif_pos (by decide)]
    rw [if_pos (by simpa using chordCrossesLand_allLand pt0 pt2)]
    unfold smoothGo
    rw [dif_neg (by decide)]
    rfl
  · exact chordCrossesLand_allLand pt0 pt1

/-- C2 (amended): when every consecutive pair of the input cell-center path
already has an unblocked chord (as cell paths produced by the A* edge checks
do), the smoothing pass preserves that invariant: every pair of consecutive
vertices of `smoothCenters centers ctx` has an unblocked chord. -/
theorem smoothCenters_chain (centers : List Point) (ctx : RouteCtx)
    (hin : centers.Chain' (fun P Q => chordCrossesLand P Q ctx = false)) :
    (smoothCenters centers ctx).Chain'
      (fun P Q => chordCrossesLand P Q ctx = false) := by
  unfold smoothCenters
  by_cases hlen : centers.length ≤ 2
  · rw [if_pos hlen]; exact hin
  · rw [if_neg hlen]
    apply smoothGo_chain ctx centers hin (centers.length - 2) 2 0
      [centers.getD 0 pdef] (by omega) (by omega) (by omega) (by omega)
      (List.chain'_singleton _) rfl
    exact chain_getD hin 0 (by omega)

/-- C2 witness: a concrete all-water context and three centers satisfying the
input invariant. -/
theorem smoothCenters_chain_witness :
    (smoothCenters [pt0, pt1, pt2] ctxAllWater).Chain'
      (fun P Q => chordCrossesLand P Q ctxAllWater = false) := by
  apply smoothCenters_chain
  simp [List.chain'_cons, chordCrossesLand_allWater]

/-! ## Claim C8: input validation in the worker -/

theorem retryFlip_ok_len (routeFn : Worker.Mode → Except String Worker.GeoRoute)
    (bfMode : Worker.Mode) (e1 : String) (r : Worker.GeoRoute)
    (h : Worker.retryFlip routeFn bfMode e1 = Except.ok r) :
    2 ≤ r.coordinates.length := by
  unfold Worker.retryFlip at h
  split at h
  · split at h
    · rename_i route hok hlen
      cases h
      assumption
    · cases h
  · cases h

/-- C8: a route request with fewer than two waypoints fails with the
invalid-input error before any routing function is consulted (the result is
this error for every routing function), and the handler never returns a
successful route whose coordinate sequence has fewer than two entries. -/
theorem handleRoute_spec (routeFn : Worker.Mode → Except String Worker.GeoRoute)
    (pts : List (ℚ × ℚ)) (bfMode : Worker.Mode) :
    (pts.length < 2 →
      Worker.handleRoute routeFn pts bfMode =
        Except.error "Need at least two points") ∧
    (∀ r, Worker.handleRoute routeFn pts bfMode = Except.ok r →
      2 ≤ r.coordinates.length) := by
  constructor
  · intro h
    unfold Worker.handleRoute
    rw [if_pos h]
  · intro r hr
    unfold Worker.handleRoute at hr
    split at hr
    · cases hr
    · split at hr
      · split at hr
        · rename_i route hok hlen
          cases hr
          assumption
        · exact retryFlip_ok_len _ _ _ _ hr
      · exact retryFlip_ok_len _ _ _ _ hr

/-- C8 witness: one waypoint is rejected with the invalid-input error, and a
well-formed success has at least two coordinates. -/
theorem handleRoute_spec_witness :
    Worker.handleRoute rfOk [(0, 0)] Worker.Mode.land =
      Except.error "Need at least two points" ∧
    2 ≤ (Worker.GeoRoute.mk [(0, 0), (1, 1)]).coordinates.length := by
  refine ⟨(handleRoute_spec rfOk [(0, 0)] Worker.Mode.land).1 (by decide), ?_⟩
  exact (handleRoute_spec rfOk [(0, 0), (1, 1)] Worker.Mode.land).2
    ⟨[(0, 0), (1, 1)]⟩ rfl

/-! ## Claim C10: nudgeOffshore is total and silent on failure -/

/-- C10: `nudgeOffshore` (part_004) is a total function: a point in an
unblocked cell is returned unchanged; a point in a blocked cell for which
every probed distance (multiples of `nudgeStepMeters` up to `maxNudgeMeters`)
and every probed bearing (every 15°) lands in a blocked cell is also returned
unchanged — so the result may still lie in a blocked cell and the return
value alone cannot distinguish this failure from success. -/
theorem nudgeOffshore_spec (p : Point) (o : V4.NudgeOpts) :
    (V4.makeIsCellBlocked o.h3 o.hasLandCell o.dilateKRings
        (o.h3.geoToH3 p.lat p.lng o.h3Res) = false →
      V4.nudgeOffshore p o = p) ∧
    (V4.makeIsCellBlocked o.h3 o.hasLandCell o.dilateKRings
        (o.h3.geoToH3 p.lat p.lng o.h3Res) = true →
      (∀ d ∈ V4.nudgeDists o, ∀ br ∈ V4.nudgeBearings,
        V4.makeIsCellBlocked o.h3 o.hasLandCell o.dilateKRings
          (o.h3.geoToH3 (destM o.math p d br).lat (destM o.math p d br).lng
            o.h3Res) = true) →
      V4.nudgeOffshore p o = p ∧
        V4.makeIsCellBlocked o.h3 o.hasLandCell o.dilateKRings
          (o.h3.geoToH3 (V4.nudgeOffshore p o).lat (V4.nudgeOffshore p o).lng
            o.h3Res) = true) := by
  constructor
  · intro h
    unfold V4.nudgeOffshore
    simp [h]
  · intro hb hall
    have hres : V4.nudgeOffshore p o = p := by
      unfold V4.nudgeOffshore
      rw [if_neg (by simp [hb])]
      have hnone : (V4.nudgeDists o).findSome? (fun d =>
          V4.nudgeBearings.findSome? (fun br =>
            let q := destM o.math p d br
            if V4.makeIsCellBlocked o.h3 o.hasLandCell o.dilateKRings
                (o.h3.geoToH3 q.lat q.lng o.h3Res) then none
            else some q)) = none := by
        rw [List.findSome?_eq_none_iff]
        intro d hd
        rw [List.findSome?_eq_none_iff]
        intro br hbr
        simp [hall d hd br hbr]
      rw [hnone]
    exact ⟨hres, by rw [hres]; exact hb⟩

/-- C10 witness: over an all-land mask every probe is blocked, the original
point is returned, and its cell is still blocked. -/
theorem nudgeOffshore_spec_witness :
    V4.nudgeOffshore pt0 oAllLand = pt0 ∧
    V4.makeIsCellBlocked oAllLand.h3 oAllLand.hasLandCell oAllLand.dilateKRings
      (oAllLand.h3.geoToH3 (V4.nudgeOffshore pt0 oAllLand).lat
        (V4.nudgeOffshore pt0 oAllLand).lng oAllLand.h3Res) = true := by
  have hb : ∀ c : Cell, V4.makeIsCellBlocked oAllLand.h3 oAllLand.hasLandCell
      oAllLand.dilateKRings c = true := by
    intro c
    simp [V4.makeIsCellBlocked, oAllLand]
  exact (nudgeOffshore_spec pt0 oAllLand).2 (hb _) (fun d _ br _ => hb _)

/-! ## Claim C5: the recursive detour fallback -/

theorem trySingleDetour_shape (A B : Point) (ctx : RouteCtx) (bs : ℕ)
    (l : List Point) (h : trySingleDetour A B ctx bs = some l) :
    ∃ C, l = [A, C, B] ∧ pointIsLand C.lng C.lat ctx = false ∧
      chordCrossesLand A C ctx = false ∧ chordCrossesLand C B ctx = false := by
  unfold trySingleDetour at h
  obtain ⟨rKm, _, hr⟩ := List.exists_of_findSome?_eq_some h
  obtain ⟨brg, _, hb⟩ := List.exists_of_findSome?_eq_some hr
  simp only at hb
  split at hb
  · cases hb
  · split at hb
    · cases hb
    · split at hb
      · cases hb
      · rename_i h1 h2 h3
        rw [Option.some_inj] at hb
        exact ⟨_, hb.symm, Bool.eq_false_iff.mpr h1, Bool.eq_false_iff.mpr h2,
          Bool.eq_false_iff.mpr h3⟩

theorem landAwareFallback_ends (ctx : RouteCtx) (bs : ℕ) :
    ∀ fuel depth maxDepth A B, maxDepth + 1 - depth ≤ fuel →
    ∀ l, landAwareFallback A B ctx bs depth maxDepth = some l →
    l.head? = some A ∧ l.getLast? = some B := by
  intro fuel
  induction fuel with
  | zero =>
      intro depth maxDepth A B hf l hl
      unfold landAwareFallback at hl
      rw [dif_pos (by omega)] at hl
      cases hl
  | succ fuel ih =>
      intro depth maxDepth A B hf l hl
      unfold landAwareFallback at hl
      by_cases hd : maxDepth < depth
      · rw [dif_pos hd] at hl; cases hl
      · rw [dif_neg hd] at hl
        by_cases hc : chordCrossesLand A B ctx = true
        · rw [if_neg (by simp [hc])] at hl
          split at hl
          · rename_i detour hdet
            rw [Option.some_inj] at hl
            obtain ⟨C, hCeq, _, _, _⟩ := trySingleDetour_shape A B ctx bs detour hdet
            subst hl
            rw [hCeq]
            exact ⟨rfl, rfl⟩
          · rename_i hdet
            split at hl
            · rename_i L Rt hL hR
              rw [Option.some_inj] at hl
              subst hl
              obtain ⟨hLh, hLl⟩ := ih (depth + 1) maxDepth A (lerp A B (1 / 2))
                (by omega) L hL
              obtain ⟨hRh, hRl⟩ := ih (depth + 1) maxDepth (lerp A B (1 / 2)) B
                (by omega) Rt hR
              constructor
              · match L, hLh, hLl with
                | [x], hLh, hLl =>
                    simp only [List.head?_cons, Option.some.injEq] at hLh
                    simp only [List.getLast?_singleton, Option.some.injEq] at hLl
                    simp only [List.dropLast_single, List.nil_append]
                    rw [hRh, ← hLl, hLh]
                | x :: y :: tl, hLh, _ =>
                    simp only [List.head?_cons, Option.some.injEq] at hLh
                    subst hLh
                    rfl
              · have hRne : Rt ≠ [] := by
                  intro hn; rw [hn] at hRh; cases hRh
                rw [List.getLast?_append]
                rw [hRl]
                rfl
            · cases hl
            · cases hl
        · rw [if_pos (by simp [Bool.eq_false_iff.mpr hc])] at hl
          rw [Option.some_inj] at hl
          subst hl
          exact ⟨rfl, rfl⟩

/-- C5: the recursive detour fallback terminates by construction with a hard
depth cap (calls beyond `maxDepth`, default 8, return `none`); a successful
single detour has the exact form `[A, C, B]` with `C` unblocked and the
chords `A→C`, `C→B` unblocked; every successful result is a polyline
starting at `A` and ending at `B`; and when the direct chord is blocked, the
single detour fails and either recursive half of the midpoint split fails,
the whole call fails with `none`. -/
theorem landAwareFallback_spec (A B : Point) (ctx : RouteCtx) (bs : ℕ)
    (depth maxDepth : ℕ) :
    (maxDepth < depth → landAwareFallback A B ctx bs depth maxDepth = none) ∧
    (∀ l, trySingleDetour A B ctx bs = some l →
      ∃ C, l = [A, C, B] ∧ pointIsLand C.lng C.lat ctx = false ∧
        chordCrossesLand A C ctx = false ∧ chordCrossesLand C B ctx = false) ∧
    (∀ l, landAwareFallback A B ctx bs depth maxDepth = some l →
      l.head? = some A ∧ l.getLast? = some B) ∧
    (chordCrossesLand A B ctx = true →
      trySingleDetour A B ctx bs = none →
      (landAwareFallback A (lerp A B (1 / 2)) ctx bs (depth + 1) maxDepth = none ∨
        landAwareFallback (lerp A B (1 / 2)) B ctx bs (depth + 1) maxDepth = none) →
      landAwareFallback A B ctx bs depth maxDepth = none) := by
  refine ⟨?_, trySingleDetour_shape A B ctx bs, ?_, ?_⟩
  · intro h
    unfold landAwareFallback
    rw [dif_pos h]
  · exact landAwareFallback_ends ctx bs (maxDepth + 1 - depth) depth maxDepth A B
      (le_refl _)
  · intro hc hdet hhalf
    unfold landAwareFallback
    by_cases hd : maxDepth < depth
    · rw [dif_pos hd]
    · rw [dif_neg hd, if_neg (by simp [hc]), hdet]
      cases hL : landAwareFallback A (lerp A B (1 / 2)) ctx bs (depth + 1)
          maxDepth with
      | none => simp [hL]
      | some L =>
          cases hR : landAwareFallback (lerp A B (1 / 2)) B ctx bs (depth + 1)
              maxDepth with
          | none => simp [hL, hR]
          | some Rt =>
              rcases hhalf with hh | hh
              · rw [hL] at hh; cases hh
              · rw [hR] at hh; cases hh

/-- C5 witness: over an all-water context the fallback at depth 0 returns
`[A, B]` (and its endpoints are `A` and `B`), while at depth 9 > 8 it
returns `none`. -/
theorem landAwareFallback_spec_witness :
    landAwareFallback pt0 pt1 ctxAllWater 10 9 8 = none ∧
    ([pt0, pt1].head? = some pt0 ∧ [pt0, pt1].getLast? = some pt1) := by
  constructor
  · exact (landAwareFallback_spec pt0 pt1 ctxAllWater 10 9 8).1 (by omega)
  · apply (landAwareFallback_spec pt0 pt1 ctxAllWater 10 0 8).2.2.1
    unfold landAwareFallback
    rw [dif_neg (by omega), if_pos (by simp [chordCrossesLand_allWater])]

/-! ## Claim C7: endpoint snapping -/

theorem jsMod_nonneg_eval (n : ℕ) (a b : ℚ) (hb : 0 < b)
    (h1 : (n : ℚ) * b ≤ a) (h2 : a < ((n : ℚ) + 1) * b) :
    jsMod a b = a - b * n := by
  unfold jsMod ratTrunc
  have h0 : 0 ≤ a / b := by
    have hn0 : (0 : ℚ) ≤ (n : ℚ) * b := by positivity
    have ha : (0 : ℚ) ≤ a := le_trans hn0 h1
    positivity
  rw [if_pos h0]
  have hf : ⌊a / b⌋ = (n : ℤ) := by
    rw [Int.floor_eq_iff]
    constructor
    · rw [le_div_iff₀ hb]; exact_mod_cast h1
    · rw [div_lt_iff₀ hb]; push_cast; exact h2
  rw [hf]
  push_cast
  ring

theorem hBlk0 : snapBlocked o7 0 = true := by decide

theorem hBlk1 : snapBlocked o7 1 = false := by decide

theorem hav7 (a b : Point) : haversineM m7 a b = 0 := by
  simp [haversineM, m7]

theorem range40 : List.range 40 = [0, 1, 2, 3, 4, 5, 6, 7, 8, 9, 10, 11, 12, 13, 14, 15, 16, 17, 18, 19, 20, 21, 22, 23, 24, 25, 26, 27, 28, 29, 30, 31, 32, 33, 34, 35, 36, 37, 38, 39] := rfl

theorem range20 : List.range 20 = [0, 1, 2, 3, 4, 5, 6, 7, 8, 9, 10, 11, 12, 13, 14, 15, 16, 17, 18, 19] := rfl

theorem geo7 : ∀ lat lng : ℚ, ∀ r : ℕ, h37.geoToH3 lat lng r =
    (if lng < 20 then 0 else if lng < 50 then (1 : ℤ) else 2) :=
  fun _ _ _ => rfl

theorem dest7a : destM m7 pt0 150 1 = ⟨62500000/2654587, 0⟩ := by
  unfold destM
  simp only [m7, pt0, toRad, toDeg, earthR]
  norm_num
  rw [jsMod_nonneg_eval 1]
  all_goals norm_num

theorem hC7 : snapFirstGoodAlong pt0 o7 1 = some ⟨62500000/2654587, 0⟩ := by
  unfold snapFirstGoodAlong
  rw [show o7.math = m7 from rfl, show o7.h3 = h37 from rfl,
    show o7.h3Res = 6 from rfl, range40]
  simp only [List.map_cons, List.findSome?_cons, geo7]
  norm_num [dest7a, hBlk1]

theorem hsnapC7 : snapC pt0 o7 = some ⟨62500000/2654587, 0⟩ := by
  show (match snapFirstGoodAlong pt0 o7 1 with
    | some q => some q
    | none => snapSpiralC pt0 o7) = some ⟨62500000/2654587, 0⟩
  rw [hC7]

theorem hT7 : snapFirstWaterT pt0 ⟨62500000/2654587, 0⟩ o7 = some (17/20) := by
  unfold snapFirstWaterT
  rw [show o7.h3 = h37 from rfl, show o7.h3Res = 6 from rfl, range20]
  simp only [List.findSome?_cons, geo7, lerp, pt0]
  norm_num [hBlk0, hBlk1]

theorem hBin7 : snapBinGo pt0 ⟨62500000/2654587, 0⟩ o7 24
    (max 0 (17/20 - 1/20)) (17/20) = (33/40, 17/20) := by
  rw [show max (0 : ℚ) (17/20 - 1/20) = 4/5 by norm_num]
  rw [show (24 : ℕ) = Nat.succ 23 from rfl]
  unfold snapBinGo
  simp only [show o7.h3 = h37 from rfl, show o7.h3Res = 6 from rfl,
    show o7.math = m7 from rfl, lerp, pt0, hav7, geo7]
  norm_num [hBlk0]

theorem hbrg7 : bearing m7 pt0 ⟨62500000/2654587, 0⟩ = 403672000/2654587 := by
  unfold bearing
  simp only [m7, pt0, toRad, toDeg]
  norm_num
  rw [jsMod_nonneg_eval 65401]
  all_goals norm_num

theorem destQ7 : destM m7 ⟨53125000/2654587, 0⟩ 150 (403672000/2654587) =
    ⟨1929228326600/7046832140569, 0⟩ := by
  unfold destM
  simp only [m7, toRad, toDeg, earthR]
  norm_num
  rw [jsMod_nonneg_eval 11]
  all_goals norm_num

theorem hsnap7 : snapEndpointToWater pt0 o7 =
    ⟨⟨1929228326600/7046832140569, 0⟩,
      some ((0, 0), (1929228326600/7046832140569, 0))⟩ := by
  unfold snapEndpointToWater
  simp only [show o7.h3 = h37 from rfl, show o7.h3Res = 6 from rfl,
    show o7.math = m7 from rfl, show o7.safetyMeters = 150 from rfl, geo7]
  rw [show ((if (pt0.lng : ℚ) < 20 then (0 : ℤ) else if pt0.lng < 50 then 1 else 2) : ℤ)
      = 0 from by norm_num [pt0]]
  rw [hBlk0]
  rw [if_neg (by simp)]
  rw [hsnapC7]
  simp only []
  rw [hT7]
  simp only []
  rw [hBin7]
  rw [show ((33 / 40 : ℚ), (17 / 20 : ℚ)).2 = 17 / 20 from rfl]
  rw [show lerp pt0 ⟨62500000/2654587, 0⟩ (17/20) = ⟨53125000/2654587, 0⟩ from by
    simp [lerp, pt0, Point.mk.injEq]; norm_num]
  rw [hbrg7, destQ7]
  simp [pt0]

theorem snapFirstWaterT_unblocked (p C : Point) (o : SnapOpts) (t : ℚ)
    (h : snapFirstWaterT p C o = some t) :
    snapBlocked o (o.h3.geoToH3 (lerp p C t).lat (lerp p C t).lng o.h3Res)
      = false := by
  unfold snapFirstWaterT at h
  obtain ⟨i, _, hi⟩ := List.exists_of_findSome?_eq_some h
  simp only at hi
  split at hi
  · rename_i hcond
    rw [Option.some_inj] at hi
    subst hi
    simpa using hcond
  · cases hi

theorem snapBinGo_hi_unblocked (p C : Point) (o : SnapOpts) :
    ∀ iter lo hi,
    snapBlocked o (o.h3.geoToH3 (lerp p C hi).lat (lerp p C hi).lng o.h3Res)
      = false →
    snapBlocked o (o.h3.geoToH3
      (lerp p C (snapBinGo p C o iter lo hi).2).lat
      (lerp p C (snapBinGo p C o iter lo hi).2).lng o.h3Res) = false := by
  intro iter
  induction iter with
  | zero => intro lo hi hh; exact hh
  | succ iter ih =>
      intro lo hi hh
      unfold snapBinGo
      by_cases hblk : snapBlocked o (o.h3.geoToH3
          (lerp p C ((lo + hi) / 2)).lat (lerp p C ((lo + hi) / 2)).lng
          o.h3Res) = true
      · simp only [hblk, if_pos]
        split
        · exact hh
        · exact ih _ _ hh
      · rw [Bool.not_eq_true] at hblk
        simp only [hblk, Bool.false_eq_true, if_neg, if_false]
        split
        · exact hblk
        · exact ih _ _ hblk

/-- C7 counterexample: a waypoint on land (its cell is blocked) with a
reachable water cell — the hint walk finds the unblocked water target `C` —
for which the snapped point returned by `snapEndpointToWater` lies in a
*blocked* cell: the `safetyMeters` offset beyond the shoreline crossing is
never re-checked against the mask, and here it steps clean across the
narrow water band back onto land. -/
theorem snapEndpointToWater_counterexample :
    snapBlocked o7 (o7.h3.geoToH3 pt0.lat pt0.lng o7.h3Res) = true ∧
    snapC pt0 o7 = some ⟨62500000/2654587, 0⟩ ∧
    snapBlocked o7 (o7.h3.geoToH3 0 (62500000/2654587) o7.h3Res) = false ∧
    (snapEndpointToWater pt0 o7).dockLeg ≠ none ∧
    snapBlocked o7 (o7.h3.geoToH3 (snapEndpointToWater pt0 o7).point.lat
      (snapEndpointToWater pt0 o7).point.lng o7.h3Res) = true := by
  refine ⟨?_, hsnapC7, ?_, ?_, ?_⟩
  · rw [show o7.h3 = h37 from rfl, show o7.h3Res = 6 from rfl, geo7]
    rw [show ((if (pt0.lng : ℚ) < 20 then (0 : ℤ) else if pt0.lng < 50 then 1 else 2) : ℤ)
        = 0 from by norm_num [pt0]]
    exact hBlk0
  · rw [show o7.h3 = h37 from rfl, show o7.h3Res = 6 from rfl, geo7]
    rw [show ((if ((62500000/2654587 : ℚ)) < 20 then (0 : ℤ) else
        if ((62500000/2654587 : ℚ)) < 50 then 1 else 2) : ℤ) = 1 from by norm_num]
    exact hBlk1
  · rw [hsnap7]
    simp
  · rw [hsnap7]
    rw [show o7.h3 = h37 from rfl, show o7.h3Res = 6 from rfl, geo7]
    rw [show ((if ((1929228326600/7046832140569 : ℚ)) < 20 then (0 : ℤ) else
        if ((1929228326600/7046832140569 : ℚ)) < 50 then 1 else 2) : ℤ) = 0 from by
      norm_num]
    exact hBlk0

/-- C7 (amended): a waypoint whose cell is unblocked is returned unchanged
with a null dock leg.  A waypoint whose cell is blocked, when a water target
`C` is found and the walk toward it finds a first water fraction `t`,
yields a snapped point equal to the shoreline-search point offset by the
configured `safetyMeters` along `bearing(p, C)`, together with a non-null
two-point dock leg from the original waypoint to the snapped point; the
*pre-offset* shoreline point always lies in an unblocked cell, but the
returned offset point is not verified against the mask (and can lie in a
blocked cell). -/
theorem snapEndpointToWater_spec (p : Point) (o : SnapOpts) :
    (snapBlocked o (o.h3.geoToH3 p.lat p.lng o.h3Res) = false →
      snapEndpointToWater p o = ⟨p, none⟩) ∧
    (∀ C t, snapBlocked o (o.h3.geoToH3 p.lat p.lng o.h3Res) = true →
      snapC p o = some C →
      snapFirstWaterT p C o = some t →
      (snapEndpointToWater p o).point =
        destM o.math (lerp p C (snapBinGo p C o 24 (max 0 (t - 1/20)) t).2)
          o.safetyMeters (bearing o.math p C) ∧
      (snapEndpointToWater p o).dockLeg =
        some ((p.lng, p.lat),
          ((snapEndpointToWater p o).point.lng,
            (snapEndpointToWater p o).point.lat)) ∧
      snapBlocked o (o.h3.geoToH3
        (lerp p C (snapBinGo p C o 24 (max 0 (t - 1/20)) t).2).lat
        (lerp p C (snapBinGo p C o 24 (max 0 (t - 1/20)) t).2).lng o.h3Res)
        = false) := by
  constructor
  · intro h
    unfold snapEndpointToWater
    simp [h]
  · intro C t hseed hC ht
    have hres : snapEndpointToWater p o =
        ⟨destM o.math (lerp p C (snapBinGo p C o 24 (max 0 (t - 1/20)) t).2)
            o.safetyMeters (bearing o.math p C),
          some ((p.lng, p.lat),
            ((destM o.math (lerp p C (snapBinGo p C o 24 (max 0 (t - 1/20)) t).2)
                o.safetyMeters (bearing o.math p C)).lng,
              (destM o.math (lerp p C (snapBinGo p C o 24 (max 0 (t - 1/20)) t).2)
                o.safetyMeters (bearing o.math p C)).lat))⟩ := by
      unfold snapEndpointToWater
      simp only [hseed, hC, ht]
      simp
    refine ⟨by rw [hres], by rw [hres], ?_⟩
    exact snapBinGo_hi_unblocked p C o 24 (max 0 (t - 1/20)) t
      (snapFirstWaterT_unblocked p C o t ht)

/-- C7 witness: the amended theorem applied at the concrete snapping
instance. -/
theorem snapEndpointToWater_spec_witness :
    (snapEndpointToWater pt0 o7).dockLeg =
      some ((pt0.lng, pt0.lat),
        ((snapEndpointToWater pt0 o7).point.lng,
          (snapEndpointToWater pt0 o7).point.lat)) ∧
    snapBlocked o7 (o7.h3.geoToH3
      (lerp pt0 ⟨62500000/2654587, 0⟩
        (snapBinGo pt0 ⟨62500000/2654587, 0⟩ o7 24
          (max 0 (17/20 - 1/20)) (17/20)).2).lat
      (lerp pt0 ⟨62500000/2654587, 0⟩
        (snapBinGo pt0 ⟨62500000/2654587, 0⟩ o7 24
          (max 0 (17/20 - 1/20)) (17/20)).2).lng o7.h3Res) = false := by
  have hseed : snapBlocked o7 (o7.h3.geoToH3 pt0.lat pt0.lng o7.h3Res) = true := by
    rw [show o7.h3 = h37 from rfl, show o7.h3Res = 6 from rfl, geo7]
    rw [show ((if (pt0.lng : ℚ) < 20 then (0 : ℤ) else if pt0.lng < 50 then 1 else 2) : ℤ)
        = 0 from by norm_num [pt0]]
    exact hBlk0
  have h := (snapEndpointToWater_spec pt0 o7).2 ⟨62500000/2654587, 0⟩ (17/20)
    hseed hsnapC7 hT7
  exact ⟨h.2.1, h.2.2⟩

/-! ## Claim C4: helper lemmas for the A* search -/

theorem getA_mem {α : Type} {l : List (Cell × α)} {k : Cell} {v : α}
    (h : getA l k = some v) : (k, v) ∈ l := by
  unfold getA at h
  cases hf : l.find? (fun e => e.1 == k) with
  | none => rw [hf] at h; cases h
  | some e =>
      rw [hf] at h
      simp at h
      have he := List.mem_of_find?_eq_some hf
      have hk := List.find?_some hf
      simp only [beq_iff_eq] at hk
      have hev : e = (k, v) := by
        cases e with
        | mk a b =>
            simp only at hk h
            rw [hk, h]
      rwa [hev] at he

theorem getA_some_of_mem_keys {α : Type} {l : List (Cell × α)} {x : Cell}
    (h : x ∈ KeysOf l) : ∃ v, getA l x = some v := by
  unfold KeysOf at h
  obtain ⟨e, he, hx⟩ := List.mem_map.mp h
  unfold getA
  cases hf : l.find? (fun e2 => e2.1 == x) with
  | none =>
      have := List.find?_eq_none.mp hf e he
      simp only [beq_iff_eq] at this
      exact absurd hx this
  | some e2 => exact ⟨e2.2, rfl⟩

theorem getA_none_of_not_mem_keys {α : Type} {l : List (Cell × α)} {x : Cell}
    (h : x ∉ KeysOf l) : getA l x = none := by
  cases hf : getA l x with
  | none => rfl
  | some v =>
      have := getA_mem hf
      exact absurd (List.mem_map.mpr ⟨(x, v), this, rfl⟩) h

theorem getA_setA_self {α : Type} (l : List (Cell × α)) (k : Cell) (v : α) :
    getA (setA l k v) k = some v := by
  unfold getA setA
  rw [List.find?_cons_of_pos (p := fun e => e.1 == k) (a := ((k, v) : Cell × α)) _ (by simp)]
  rfl

theorem getA_setA_ne {α : Type} (l : List (Cell × α)) (k k2 : Cell) (v : α)
    (h : k2 ≠ k) : getA (setA l k v) k2 = getA l k2 := by
  unfold getA setA
  rw [List.find?_cons_of_neg (p := fun e => e.1 == k2)
    (a := ((k, v) : Cell × α)) _ (by simp [Ne.symm h])]
  congr 1
  induction l with
  | nil => rfl
  | cons a tl ih =>
      by_cases ha : a.1 = k
      · rw [List.filter_cons_of_neg (p := fun e => !(e.1 == k)) (a := a) (by simp [ha])]
        rw [List.find?_cons_of_neg (p := fun e => e.1 == k2) (a := a) _
          (by simp [ha, Ne.symm h])]
        exact ih
      · rw [List.filter_cons_of_pos (p := fun e => !(e.1 == k)) (a := a) (by simp [ha])]
        by_cases ha2 : a.1 = k2
        · rw [List.find?_cons_of_pos (p := fun e => e.1 == k2) (a := a) _
            (by simp [ha2]),
            List.find?_cons_of_pos (p := fun e => e.1 == k2) (a := a) _
            (by simp [ha2])]
        · rw [List.find?_cons_of_neg (p := fun e => e.1 == k2) (a := a) _
            (by simp [ha2]),
            List.find?_cons_of_neg (p := fun e => e.1 == k2) (a := a) _
            (by simp [ha2])]
          exact ih

theorem mem_of_mem_setA {α : Type} {l : List (Cell × α)} {k : Cell} {v : α}
    {e : Cell × α} (h : e ∈ setA l k v) : e = (k, v) ∨ (e ∈ l ∧ e.1 ≠ k) := by
  unfold setA at h
  rcases List.mem_cons.mp h with h1 | h1
  · exact Or.inl h1
  · right
    have := List.mem_filter.mp h1
    refine ⟨this.1, ?_⟩
    simpa using this.2

theorem keys_setA_self {α : Type} (l : List (Cell × α)) (k : Cell) (v : α) :
    k ∈ KeysOf (setA l k v) := by
  unfold KeysOf setA
  simp

theorem keys_subset_setA {α : Type} {l : List (Cell × α)} {x k : Cell} {v : α}
    (h : x ∈ KeysOf l) : x ∈ KeysOf (setA l k v) := by
  by_cases hx : x = k
  · subst hx; exact keys_setA_self l x v
  · unfold KeysOf at h ⊢
    obtain ⟨e, he, hx2⟩ := List.mem_map.mp h
    refine List.mem_map.mpr ⟨e, ?_, hx2⟩
    unfold setA
    refine List.mem_cons.mpr (Or.inr (List.mem_filter.mpr ⟨he, ?_⟩))
    simp only [Bool.not_eq_eq_eq_not, Bool.not_false, beq_iff_eq]
    simp only [hx2]
    simpa using hx

theorem swapL_subset {α : Type} {l : List α} {i j : ℕ} {e : α}
    (h : e ∈ swapL l i j) : e ∈ l := by
  unfold swapL at h
  cases hi : l[i]? with
  | none => rw [hi] at h; cases hj : l[j]? <;> rw [hj] at h <;> exact h
  | some a =>
      cases hj : l[j]? with
      | none => rw [hi, hj] at h; exact h
      | some b =>
          rw [hi, hj] at h
          rcases List.mem_or_eq_of_mem_set h with h2 | h2
          · rcases List.mem_or_eq_of_mem_set h2 with h3 | h3
            · exact h3
            · rw [h3]; exact List.getElem?_mem hj
          · rw [h2]; exact List.getElem?_mem hi

theorem siftUp_subset {h : List (ℚ × Cell)} {i : ℕ} {e : ℚ × Cell}
    (hm : e ∈ siftUp h i) : e ∈ h := by
  induction i using Nat.strong_induction_on generalizing h with
  | _ i ih =>
      unfold siftUp at hm
      by_cases hi : i = 0
      · rw [if_pos hi] at hm; exact hm
      · rw [if_neg hi] at hm
        simp only [] at hm
        cases hp : h[(i - 1) / 2]? with
        | none => rw [hp] at hm; exact hm
        | some hpv =>
            cases hiv : h[i]? with
            | none => rw [hp, hiv] at hm; exact hm
            | some hivv =>
                rw [hp, hiv] at hm
                simp only [] at hm
                by_cases hle : hpv.1 ≤ hivv.1
                · rw [if_pos hle] at hm; exact hm
                · rw [if_neg hle] at hm
                  exact swapL_subset (ih ((i - 1) / 2) (by omega) hm)

theorem heapPush_subset {h : List (ℚ × Cell)} {f : ℚ} {c : Cell}
    {e : ℚ × Cell} (hm : e ∈ heapPush h f c) : e = (f, c) ∨ e ∈ h := by
  unfold heapPush at hm
  have := siftUp_subset hm
  rcases List.mem_append.mp this with h2 | h2
  · exact Or.inr h2
  · exact Or.inl (List.mem_singleton.mp h2)

theorem siftDownGo_subset {fuel : ℕ} {h : List (ℚ × Cell)} {i : ℕ}
    {e : ℚ × Cell} (hm : e ∈ siftDownGo fuel h i) : e ∈ h := by
  induction fuel generalizing h i with
  | zero => exact hm
  | succ fuel ih =>
      unfold siftDownGo at hm
      simp only [] at hm
      split at hm
      · exact hm
      · exact swapL_subset (ih hm)

theorem heapPop_subset {h h2 : List (ℚ × Cell)} {top : ℚ × Cell}
    (hp : heapPop h = some (top, h2)) :
    top ∈ h ∧ ∀ e ∈ h2, e ∈ h := by
  unfold heapPop at hp
  cases h with
  | nil => cases hp
  | cons t tail =>
      simp only [] at hp
      by_cases hr : ((t :: tail).dropLast).isEmpty = true
      · rw [if_pos hr] at hp
        rw [Option.some_inj, Prod.mk.injEq] at hp
        obtain ⟨h3, h4⟩ := hp
        constructor
        · rw [← h3]; exact List.mem_cons_self t tail
        · intro e he; rw [← h4] at he; cases he
      · rw [if_neg hr] at hp
        rw [Option.some_inj, Prod.mk.injEq] at hp
        obtain ⟨h3, h4⟩ := hp
        constructor
        · rw [← h3]; exact List.mem_cons_self t tail
        · intro e he
          rw [← h4] at he
          have h5 := siftDownGo_subset he
          rcases List.mem_or_eq_of_mem_set h5 with h6 | h6
          · exact List.dropLast_subset _ h6
          · rw [h6]
            have hne : (t :: tail) ≠ [] := List.cons_ne_nil t tail
            rw [List.getLast?_eq_getLast _ hne]
            simp only [Option.getD_some]
            exact List.getLast_mem hne

theorem countP_lt_of_mem {α : Type} {l : List α} {q1 q2 : α → Bool} {e : α}
    (he : e ∈ l) (h2 : q2 e = true) (h1 : q1 e = false)
    (hmono : ∀ a ∈ l, q1 a = true → q2 a = true) :
    l.countP q1 < l.countP q2 := by
  induction l with
  | nil => cases he
  | cons a tl ih =>
      rw [List.countP_cons, List.countP_cons]
      rcases List.mem_cons.mp he with rfl | he2
      · rw [h1, h2]
        simp only [Bool.false_eq_true, if_false, if_true]
        have := List.countP_mono_left (l := tl)
          (fun x hx hq => hmono x (List.mem_cons_of_mem _ hx) hq)
        omega
      · have hlt := ih he2 (fun x hx hq => hmono x (List.mem_cons_of_mem _ hx) hq)
        by_cases hq1 : q1 a = true
        · rw [hq1, hmono a (List.mem_cons_self a tl) hq1]
          omega
        · rw [Bool.not_eq_true] at hq1
          rw [hq1]
          simp only [Bool.false_eq_true, if_false]
          split <;> omega

theorem inv_start_not_key {start : Cell} {st : AStarState}
    (hinv : AStarInv start st) : start ∉ KeysOf st.came := by
  intro hmem
  obtain ⟨p, hp⟩ := getA_some_of_mem_keys hmem
  have hent := getA_mem hp
  obtain ⟨gx, gp, hgx, hgp, hlt⟩ := hinv.2.2.1 _ hent
  have h0 : gx = 0 := by
    have := hinv.1
    simp only at hgx
    rw [this] at hgx
    exact (Option.some_inj.mp hgx).symm
  have hge : 0 ≤ gp := hinv.2.2.2.2 _ (getA_mem hgp)
  rw [h0] at hlt
  linarith

theorem walkGo_ne_nil (came : List (Cell × Cell)) (fuel : ℕ) (k : Cell) :
    walkGo came fuel k ≠ [] := by
  cases fuel with
  | zero => simp [walkGo]
  | succ n =>
      unfold walkGo
      cases getA came k <;> simp

theorem walkGo_head (came : List (Cell × Cell)) (fuel : ℕ) (k : Cell) :
    (walkGo came fuel k).head? = some k := by
  cases fuel with
  | zero => rfl
  | succ n =>
      unfold walkGo
      cases getA came k <;> rfl

theorem walkGo_start (came : List (Cell × Cell)) (start : Cell)
    (hnone : getA came start = none) (fuel : ℕ) :
    walkGo came fuel start = [start] := by
  cases fuel with
  | zero => rfl
  | succ n => unfold walkGo; rw [hnone]

theorem getLast?_cons_of_ne_nil {α : Type} (a : α) (l : List α) (h : l ≠ []) :
    (a :: l).getLast? = l.getLast? := by
  cases l with
  | nil => exact absurd rfl h
  | cons b tl => rfl

theorem walk_reaches (start : Cell) (g : List (Cell × ℚ))
    (came : List (Cell × Cell))
    (hnone : getA came start = none)
    (hpar : ∀ e ∈ came, e.2 = start ∨ e.2 ∈ KeysOf came)
    (hmeas : ∀ e ∈ came, ∃ gx gp, getA g e.1 = some gx ∧
      getA g e.2 = some gp ∧ gp < gx) :
    ∀ fuel x, (x = start ∨ x ∈ KeysOf came) →
    came.countP (fun e => decide (gval g e.1 < gval g x)) < fuel →
    (walkGo came fuel x).getLast? = some start := by
  intro fuel
  induction fuel with
  | zero => intro x _ hrank; omega
  | succ fuel ih =>
      intro x hx hrank
      rcases hx with rfl | hx
      · rw [walkGo_start came x hnone]
        rfl
      · obtain ⟨p, hp⟩ := getA_some_of_mem_keys hx
        have hent := getA_mem hp
        unfold walkGo
        rw [hp]
        rw [getLast?_cons_of_ne_nil _ _ (walkGo_ne_nil came fuel p)]
        rcases hpar _ hent with hps | hpk
        · simp only at hps
          rw [hps, walkGo_start came start hnone]
          rfl
        · apply ih p (Or.inr hpk)
          obtain ⟨pv, hpv⟩ := getA_some_of_mem_keys hpk
          have hpent := getA_mem hpv
          obtain ⟨gx, gp, hgx, hgp, hlt⟩ := hmeas _ hent
          have hgvx : gval g x = gx := by simp [gval, hgx]
          have hgvp : gval g p = gp := by simp [gval]; rw [hgp]; rfl
          have hr2 : came.countP (fun e => decide (gval g e.1 < gval g p)) <
              came.countP (fun e => decide (gval g e.1 < gval g x)) := by
            apply countP_lt_of_mem (e := (p, pv)) hpent
            · simp only [decide_eq_true_eq]
              rw [hgvp, hgvx]
              exact hlt
            · simp only [decide_eq_false_iff_not]
              exact lt_irrefl _
            · intro a _ hq
              simp only [decide_eq_true_eq] at hq ⊢
              rw [hgvx]
              rw [hgvp] at hq
              exact lt_trans hq hlt
          omega

theorem aStarVisit_cases (ctx : RouteCtx) (allowed : Option (List Cell))
    (goalC : Point) (cur : Cell) (st : AStarState) (nb : Cell) :
    aStarVisit ctx allowed goalC cur st nb = st ∨
    ∃ gc, (nb == cur) = false ∧ getA st.g cur = some gc ∧
      ltInf (some (gc + haversineM ctx.math (cellCenter ctx.h3 cur)
        (cellCenter ctx.h3 nb))) (getA st.g nb) = true ∧
      aStarVisit ctx allowed goalC cur st nb =
        ⟨setA st.g nb (gc + haversineM ctx.math (cellCenter ctx.h3 cur)
            (cellCenter ctx.h3 nb)),
          setA st.came nb cur,
          heapPush st.heap ((gc + haversineM ctx.math (cellCenter ctx.h3 cur)
            (cellCenter ctx.h3 nb)) +
            haversineM ctx.math (cellCenter ctx.h3 nb) goalC) nb⟩ := by
  unfold aStarVisit
  by_cases h1 : (nb == cur) = true
  · left; rw [if_pos h1]
  · rw [if_neg h1]
    by_cases h2 : (match allowed with
        | some s => !s.contains nb
        | none => false) = true
    · left; rw [if_pos h2]
    · rw [if_neg h2]
      by_cases h3 : ctx.isCellBlocked nb = true
      · left; rw [if_pos h3]
      · rw [if_neg h3]
        simp only []
        by_cases h4 : chordCrossesLand (cellCenter ctx.h3 cur)
            (cellCenter ctx.h3 nb) { ctx with sampleMeters := 220 } = true
        · left; rw [if_pos h4]
        · rw [if_neg h4]
          cases hg : getA st.g cur with
          | none =>
              left
              rw [if_neg (by simp [ltInf])]
          | some gc =>
              rw [show Option.map (fun gc => gc + haversineM ctx.math
                  (cellCenter ctx.h3 cur) (cellCenter ctx.h3 nb)) (some gc) =
                some (gc + haversineM ctx.math (cellCenter ctx.h3 cur)
                  (cellCenter ctx.h3 nb)) from rfl]
              by_cases h5 : ltInf (some (gc + haversineM ctx.math
                  (cellCenter ctx.h3 cur) (cellCenter ctx.h3 nb)))
                  (getA st.g nb) = true
              · right
                refine ⟨gc, by simpa using h1, rfl, h5, ?_⟩
                rw [if_pos h5]
              · left
                rw [if_neg h5]

theorem aStarVisit_inv (start : Cell) (ctx : RouteCtx)
    (allowed : Option (List Cell)) (goalC : Point) (cur : Cell)
    (st : AStarState) (nb : Cell)
    (hpos : ∀ c c2 : Cell, c ≠ c2 →
      0 < haversineM ctx.math (cellCenter ctx.h3 c) (cellCenter ctx.h3 c2))
    (hcur : cur = start ∨ cur ∈ KeysOf st.came)
    (hinv : AStarInv start st) :
    AStarInv start (aStarVisit ctx allowed goalC cur st nb) ∧
    (∀ x ∈ KeysOf st.came,
      x ∈ KeysOf (aStarVisit ctx allowed goalC cur st nb).came) := by
  rcases aStarVisit_cases ctx allowed goalC cur st nb with heq | ⟨gc, hne, hg, h5, heq⟩
  · rw [heq]; exact ⟨hinv, fun x hx => hx⟩
  · rw [heq]
    have hnbcur : nb ≠ cur := by simpa using hne
    have hd : 0 < haversineM ctx.math (cellCenter ctx.h3 cur)
        (cellCenter ctx.h3 nb) := hpos cur nb (Ne.symm hnbcur)
    have hgc0 : 0 ≤ gc := hinv.2.2.2.2 _ (getA_mem hg)
    set d := haversineM ctx.math (cellCenter ctx.h3 cur) (cellCenter ctx.h3 nb)
      with hd_def
    have htv0 : 0 < gc + d := by linarith
    have hnbstart : nb ≠ start := by
      intro hns
      subst hns
      rw [hinv.1] at h5
      simp only [ltInf, decide_eq_true_eq] at h5
      linarith
    refine ⟨⟨?_, ?_, ?_, ?_, ?_⟩, ?_⟩
    · simp only
      rw [getA_setA_ne _ _ _ _ (Ne.symm hnbstart)]
      exact hinv.1
    · intro e he
      simp only at he ⊢
      rcases mem_of_mem_setA he with rfl | ⟨he2, _⟩
      · simp only
        rcases hcur with rfl | hck
        · exact Or.inl rfl
        · exact Or.inr (keys_subset_setA hck)
      · rcases hinv.2.1 e he2 with hs | hk
        · exact Or.inl hs
        · exact Or.inr (keys_subset_setA hk)
    · intro e he
      simp only at he ⊢
      rcases mem_of_mem_setA he with rfl | ⟨he2, hne2⟩
      · refine ⟨gc + d, gc, ?_, ?_, by linarith⟩
        · simp only
          exact getA_setA_self _ _ _
        · simp only
          rw [getA_setA_ne _ _ _ _ hnbcur.symm]
          exact hg
      · obtain ⟨gx, gp, hgx, hgp, hlt⟩ := hinv.2.2.1 e he2
        by_cases hpe : e.2 = nb
        · refine ⟨gx, gc + d, ?_, ?_, ?_⟩
          · rw [getA_setA_ne _ _ _ _ hne2]
            exact hgx
          · rw [hpe]
            exact getA_setA_self _ _ _
          · rw [hpe] at hgp
            rw [hgp] at h5
            simp only [ltInf, decide_eq_true_eq] at h5
            linarith
        · refine ⟨gx, gp, ?_, ?_, hlt⟩
          · rw [getA_setA_ne _ _ _ _ hne2]
            exact hgx
          · rw [getA_setA_ne _ _ _ _ hpe]
            exact hgp
    · intro q hq
      simp only at hq ⊢
      rcases heapPush_subset hq with rfl | hq2
      · exact Or.inr (keys_setA_self _ _ _)
      · rcases hinv.2.2.2.1 q hq2 with hs | hk
        · exact Or.inl hs
        · exact Or.inr (keys_subset_setA hk)
    · intro v hv
      simp only at hv
      rcases mem_of_mem_setA hv with rfl | ⟨hv2, _⟩
      · simp only
        linarith
      · exact hinv.2.2.2.2 v hv2
    · intro x hx
      simp only
      exact keys_subset_setA hx

theorem foldVisit_inv (start : Cell) (ctx : RouteCtx)
    (allowed : Option (List Cell)) (goalC : Point) (cur : Cell)
    (hpos : ∀ c c2 : Cell, c ≠ c2 →
      0 < haversineM ctx.math (cellCenter ctx.h3 c) (cellCenter ctx.h3 c2)) :
    ∀ (l : List Cell) (st : AStarState),
    cur = start ∨ cur ∈ KeysOf st.came → AStarInv start st →
    AStarInv start (l.foldl (aStarVisit ctx allowed goalC cur) st) := by
  intro l
  induction l with
  | nil => intro st _ hinv; exact hinv
  | cons nb tl ih =>
      intro st hcur hinv
      rw [List.foldl_cons]
      obtain ⟨hinv2, hkeys⟩ :=
        aStarVisit_inv start ctx allowed goalC cur st nb hpos hcur hinv
      apply ih _ _ hinv2
      rcases hcur with hs | hk
      · exact Or.inl hs
      · exact Or.inr (hkeys _ hk)

theorem aStarLoop_count (ctx : RouteCtx) (allowed : Option (List Cell))
    (goal : Cell) (goalC : Point) :
    ∀ fuel st, (aStarLoop ctx allowed goal goalC fuel st).2 ≤ fuel := by
  intro fuel
  induction fuel with
  | zero => intro st; simp [aStarLoop]
  | succ fuel ih =>
      intro st
      unfold aStarLoop
      by_cases hh : st.heap.isEmpty = true
      · rw [if_pos hh]; simp
      · rw [if_neg hh]
        cases hp : heapPop st.heap with
        | none => simp
        | some pr =>
            cases pr with
            | mk top h2 =>
                simp only []
                by_cases hg : (top.2 == goal) = true
                · rw [if_pos hg]; simp
                · rw [if_neg hg]
                  have := ih ((ctx.h3.kRing top.2 1).foldl
                    (aStarVisit ctx allowed goalC top.2) ⟨st.g, st.came, h2⟩)
                  omega

theorem aStarLoop_ends (start : Cell) (ctx : RouteCtx)
    (allowed : Option (List Cell)) (goal : Cell) (goalC : Point)
    (hpos : ∀ c c2 : Cell, c ≠ c2 →
      0 < haversineM ctx.math (cellCenter ctx.h3 c) (cellCenter ctx.h3 c2))
    (hne : goal ≠ start) :
    ∀ fuel st, AStarInv start st →
    ∀ p, (aStarLoop ctx allowed goal goalC fuel st).1 = some p →
    p.head? = some start ∧ p.getLast? = some goal := by
  intro fuel
  induction fuel with
  | zero => intro st _ p hp; cases hp
  | succ fuel ih =>
      intro st hinv p hp
      unfold aStarLoop at hp
      by_cases hh : st.heap.isEmpty = true
      · rw [if_pos hh] at hp; cases hp
      · rw [if_neg hh] at hp
        cases hpop : heapPop st.heap with
        | none => rw [hpop] at hp; cases hp
        | some pr =>
            cases pr with
            | mk top h2 =>
                rw [hpop] at hp
                simp only [] at hp
                by_cases hg : (top.2 == goal) = true
                · rw [if_pos hg] at hp
                  simp only [] at hp
                  rw [Option.some_inj] at hp
                  have hgoal : top.2 = goal := by simpa using hg
                  obtain ⟨htop, hrest⟩ := heapPop_subset hpop
                  have hgk : goal ∈ KeysOf st.came := by
                    rcases hinv.2.2.2.1 top htop with hs | hk
                    · rw [hgoal] at hs; exact absurd hs hne
                    · rw [hgoal] at hk; exact hk
                  have hnone : getA st.came start = none :=
                    getA_none_of_not_mem_keys (inv_start_not_key hinv)
                  have hwalk : (walkGo st.came (st.came.length + 1)
                      goal).getLast? = some start := by
                    apply walk_reaches start st.g st.came hnone hinv.2.1
                      hinv.2.2.1 (st.came.length + 1) goal (Or.inr hgk)
                    have := List.countP_le_length
                      (p := fun e => decide (gval st.g e.1 < gval st.g goal))
                      (l := st.came)
                    omega
                  rw [← hp]
                  unfold walkParents
                  constructor
                  · rw [List.head?_reverse]
                    exact hwalk
                  · rw [List.getLast?_reverse]
                    exact walkGo_head st.came (st.came.length + 1) goal
                · rw [if_neg hg] at hp
                  simp only [] at hp
                  have hcur : top.2 = start ∨ top.2 ∈ KeysOf st.came := by
                    obtain ⟨htop, _⟩ := heapPop_subset hpop
                    exact hinv.2.2.2.1 top htop
                  have hinv2 : AStarInv start ⟨st.g, st.came, h2⟩ := by
                    obtain ⟨_, hrest⟩ := heapPop_subset hpop
                    exact ⟨hinv.1, hinv.2.1, hinv.2.2.1,
                      fun q hq => hinv.2.2.2.1 q (hrest q hq),
                      hinv.2.2.2.2⟩
                  exact ih _ (foldVisit_inv start ctx allowed goalC top.2 hpos
                    (ctx.h3.kRing top.2 1) ⟨st.g, st.came, h2⟩ hcur hinv2) p hp

/-- C4: `aStarH3` performs at most `maxExpansions` loop expansions (default
200000, on the order of 10^5) and returns `none` (no path) when the search
is exhausted or capped — it cannot run unbounded; and, for positive
inter-cell distances, every successful result is a path reconstructed by
walking parent links from the goal and reversing, so it starts at the start
cell and ends at the goal cell. -/
theorem aStarH3_spec (startCell goalCell : Cell) (ctx : RouteCtx)
    (allowed : Option (List Cell)) (maxExpansions : ℕ)
    (hpos : ∀ c c2 : Cell, c ≠ c2 →
      0 < haversineM ctx.math (cellCenter ctx.h3 c) (cellCenter ctx.h3 c2)) :
    aStarH3Count startCell goalCell ctx allowed maxExpansions ≤ maxExpansions ∧
    (∀ p, aStarH3 startCell goalCell ctx allowed maxExpansions = some p →
      p.head? = some startCell ∧ p.getLast? = some goalCell) := by
  unfold aStarH3Count aStarH3 aStarH3Run
  by_cases heq : (startCell == goalCell) = true
  · rw [if_pos heq]
    have : startCell = goalCell := by simpa using heq
    subst this
    refine ⟨by simp, ?_⟩
    intro p hp
    simp only [Option.some_inj] at hp
    rw [← hp]
    exact ⟨rfl, rfl⟩
  · rw [if_neg heq]
    simp only []
    have hne2 : goalCell ≠ startCell := by
      intro h
      subst h
      simp at heq
    constructor
    · exact aStarLoop_count ctx allowed goalCell
        (cellCenter ctx.h3 goalCell) maxExpansions _
    · intro p hp
      apply aStarLoop_ends startCell ctx allowed goalCell
        (cellCenter ctx.h3 goalCell) hpos hne2 maxExpansions _ ?_ p hp
      refine ⟨getA_setA_self _ _ _, ?_, ?_, ?_, ?_⟩
      · intro e he; cases he
      · intro e he; cases he
      · intro q hq
        simp only [aStarInit] at hq
        rcases heapPush_subset hq with rfl | hq2
        · exact Or.inl rfl
        · cases hq2
      · intro v hv
        simp only [aStarInit] at hv
        rcases mem_of_mem_setA hv with rfl | ⟨hv2, _⟩
        · simp
        · cases hv2

theorem haversineM_mPos (a b : Point) : haversineM mPos a b =
    2 * earthR * min 1 (((b.lat - a.lat) / 2) * ((b.lat - a.lat) / 2) +
      ((b.lng - a.lng) / 2) * ((b.lng - a.lng) / 2)) := by
  unfold haversineM mPos toRad
  simp only []
  congr 2
  field_simp

theorem ctxPos_hpos : ∀ c c2 : Cell, c ≠ c2 →
    0 < haversineM ctxPos.math (cellCenter ctxPos.h3 c)
      (cellCenter ctxPos.h3 c2) := by
  intro c c2 hnec
  have hc : cellCenter ctxPos.h3 c = ⟨0, (c : ℚ)⟩ := by
    simp [cellCenter, ctxPos, h3Line]
  have hc2 : cellCenter ctxPos.h3 c2 = ⟨0, (c2 : ℚ)⟩ := by
    simp [cellCenter, ctxPos, h3Line]
  rw [show ctxPos.math = mPos from rfl, hc, hc2, haversineM_mPos]
  simp only []
  have hx : (((c2 : ℚ) - (c : ℚ)) / 2) ≠ 0 := by
    apply div_ne_zero _ two_ne_zero
    rw [sub_ne_zero]
    exact_mod_cast Ne.symm hnec
  have h2 : 0 < (((c2 : ℚ) - c) / 2) * (((c2 : ℚ) - c) / 2) +
      ((0 - 0 : ℚ) / 2) * ((0 - 0 : ℚ) / 2) := by
    norm_num
    rw [show (¬(c2 : ℚ) - (c : ℚ) = 0) = ((c2 : ℚ) - (c : ℚ) ≠ 0) from rfl,
      sub_ne_zero]
    exact_mod_cast Ne.symm hnec
  have h3 : 0 < min 1 ((((c2 : ℚ) - c) / 2) * (((c2 : ℚ) - c) / 2) +
      ((0 - 0 : ℚ) / 2) * ((0 - 0 : ℚ) / 2)) := lt_min one_pos h2
  have hR : 0 < (2 : ℚ) * earthR := by norm_num [earthR]
  calc (0 : ℚ) = 2 * earthR * 0 := by ring
    _ < _ := by
        apply mul_lt_mul_of_pos_left h3 hR

/-- C4 witness: a kernel with positive inter-cell distances; the search from
a cell to itself stays within the default expansion cap and returns the
one-cell path. -/
theorem aStarH3_spec_witness :
    aStarH3Count 5 5 ctxPos none 200000 ≤ 200000 ∧
    ((aStarH3 5 5 ctxPos none 200000).getD []).head? = some (5 : Cell) ∧
    ((aStarH3 5 5 ctxPos none 200000).getD []).getLast? = some (5 : Cell) := by
  have h := aStarH3_spec 5 5 ctxPos none 200000 ctxPos_hpos
  have hres : aStarH3 5 5 ctxPos none 200000 = some [5] := rfl
  rw [hres]
  exact ⟨h.1, (h.2 [5] hres).1, (h.2 [5] hres).2⟩
